import Mathlib

/-!
# The dispatch loop of the pocketpy virtual machine (`src/ceval.h`)

A shallow embedding of `VM::run_frame`: one step of the loop is the function `step`
(collection check point, fetch, `switch` on the opcode), the loop itself is `run_frame`.

The file `ceval.h` only contains the loop.  The frame, the name tables, the object model and
the call protocol are declared in headers that are not part of the sources; they are
modelled from the specification (section 3 and section 6) and every such definition says so.
Collaborators whose behaviour the specification leaves open (the call protocol, string
rendering, the compiler, ...) are the fields of the structure `Ext`.
-/

namespace pkpy

/-! ## Data model -/

/-- Modelled from the spec: an interned name (`StrName`); `str` is the text it interns. -/
structure StrName where
  str : String
deriving DecidableEq, Repr

/-- Modelled from the spec: a value handle (`PyObject*`).  `nullptr` is the null pointer,
`None`, `True`, `False`, `Ellipsis` are the process-wide singletons, `_py_op_call` is the
trampoline sentinel and `obj a` is any other object, identified by its address. -/
inductive PyObjectPtr where
  | nullptr
  | None
  | True
  | False
  | Ellipsis
  | _py_op_call
  | obj (addr : Nat)
deriving DecidableEq, Repr

/-- Modelled from the spec: an argument bundle (`Args`), index-addressed. -/
abbrev Args := List PyObjectPtr

/-- Modelled from the spec: a name table (`NameDict`), a finite map from interned names to
value handles, kept as an association list with at most one useful entry per name. -/
abbrev NameDict := List (StrName × PyObjectPtr)

/-- Modelled from the spec: `NameDict::try_get`, the value bound to `name` or `nullptr`. -/
def NameDict.try_get (d : NameDict) (name : StrName) : PyObjectPtr :=
  match d.lookup name with
  | some v => v
  | none => .nullptr

/-- Modelled from the spec: `NameDict::contains`. -/
def NameDict.contains (d : NameDict) (name : StrName) : Bool :=
  (d.lookup name).isSome

/-- Modelled from the spec: `NameDict::set`, store overwrites or inserts. -/
def NameDict.set (d : NameDict) (name : StrName) (v : PyObjectPtr) : NameDict :=
  if d.contains name then d.map (fun kv => if kv.1 = name then (name, v) else kv)
  else d ++ [(name, v)]

/-- Modelled from the spec: `NameDict::erase`, removes the binding of `name`. -/
def NameDict.erase (d : NameDict) (name : StrName) : NameDict :=
  d.filter (fun kv => kv.1 ≠ name)

/-- Modelled from the spec: `NameDict::items`, the bindings of the table. -/
def NameDict.items (d : NameDict) : List (StrName × PyObjectPtr) := d

/-- The opcodes: the cases of the `switch` in `run_frame`, followed by the reserved opcodes
that only occur in the commented-out part of the switch. -/
inductive Opcode where
  | OP_NO_OP
  | OP_POP_TOP | OP_DUP_TOP | OP_ROT_TWO | OP_PRINT_EXPR
  | OP_LOAD_CONST | OP_LOAD_NONE | OP_LOAD_TRUE | OP_LOAD_FALSE | OP_LOAD_ELLIPSIS
  | OP_LOAD_BUILTIN_EVAL | OP_LOAD_FUNCTION
  | OP_LOAD_NAME | OP_LOAD_ATTR | OP_LOAD_SUBSCR
  | OP_STORE_LOCAL | OP_STORE_GLOBAL | OP_STORE_ATTR | OP_STORE_SUBSCR
  | OP_DELETE_LOCAL | OP_DELETE_GLOBAL | OP_DELETE_ATTR | OP_DELETE_SUBSCR
  | OP_BUILD_LIST | OP_BUILD_DICT | OP_BUILD_SET | OP_BUILD_SLICE | OP_BUILD_TUPLE
  | OP_BUILD_STRING
  | OP_BINARY_OP | OP_COMPARE_OP | OP_BITWISE_OP | OP_IS_OP | OP_CONTAINS_OP
  | OP_JUMP_ABSOLUTE | OP_POP_JUMP_IF_FALSE | OP_JUMP_IF_TRUE_OR_POP
  | OP_JUMP_IF_FALSE_OR_POP | OP_LOOP_CONTINUE | OP_LOOP_BREAK | OP_GOTO
  | OP_CALL | OP_CALL_UNPACK | OP_CALL_KWARGS | OP_CALL_KWARGS_UNPACK | OP_RETURN_VALUE
  | OP_LIST_APPEND | OP_DICT_ADD | OP_SET_ADD
  | OP_UNARY_NEGATIVE | OP_UNARY_NOT | OP_UNARY_STAR
  | OP_GET_ITER | OP_FOR_ITER
  | OP_IMPORT_NAME | OP_IMPORT_STAR
  | OP_SETUP_DECORATOR | OP_SETUP_CLOSURE | OP_BEGIN_CLASS | OP_END_CLASS
  | OP_STORE_CLASS_ATTR | OP_ASSERT | OP_EXCEPTION_MATCH | OP_RAISE | OP_RE_RAISE
  | OP_YIELD_VALUE | OP_WITH_ENTER | OP_WITH_EXIT | OP_TRY_BLOCK_ENTER | OP_TRY_BLOCK_EXIT
deriving DecidableEq, Repr

/-- Modelled from the spec: one bytecode operation, `op` with its 32-bit payload `arg` and
the index `block` of the block it belongs to. -/
structure Bytecode where
  op : Opcode
  arg : Int
  block : Nat
deriving DecidableEq, Repr

/-- Modelled from the spec: an entry of the block table, a region of instruction offsets. -/
structure CodeBlock where
  start : Int
  end_ : Int
deriving DecidableEq, Repr

/-- Modelled from the spec: the immutable compiled unit. -/
structure CodeObject where
  codes : List Bytecode
  consts : List PyObjectPtr
  names : List StrName
  blocks : List CodeBlock
  labels : List (StrName × Int)
deriving DecidableEq, Repr

/-- Modelled from the spec: the per-invocation state.  `pc` is the offset of the next
operation to fetch, `stack` the operand stack in push order (the top is the last element),
`names` the scope chain as the array of table pointers it is in the source (`none` is the
null sentinel), `_module` the owning module and `globals_at` the position of the module
globals in the chain (the locals are at position 0). -/
structure Frame where
  co : CodeObject
  pc : Int
  stack : List PyObjectPtr
  names : List (Option NameDict)
  _module : PyObjectPtr
  globals_at : Nat
deriving DecidableEq, Repr

/-- Modelled from the spec: the payload of a function object, a template `decl` stamped with
its defining module. -/
structure Function where
  decl : Nat
  _module : PyObjectPtr
deriving DecidableEq, Repr

/-- Modelled from the spec: the payload of a slice object; a component that was omitted is
unset (`none`), which is the state of all three in a fresh `Slice`. -/
structure Slice where
  start : Option Int := none
  stop : Option Int := none
  step : Option Int := none
deriving DecidableEq, Repr

/-- Modelled from the spec: the state of the virtual machine the loop reads and writes
directly: the module table, the table of lazy module sources, the output stream, the
attribute tables of the objects that have one, the next free object address, and the source
files of the working directory. -/
structure VM where
  _modules : NameDict
  _lazy_modules : List (StrName × String)
  _stdout : String
  attrs : List (PyObjectPtr × NameDict)
  next_addr : Nat
  cwd : List (String × String)
  builtins : PyObjectPtr
deriving DecidableEq, Repr

/-- What is thrown in `run_frame`: `_error(type, msg)`, the helpers `NameError`, `TypeError`
and `AttributeError` of the VM (their message texts are not part of the sources), and
`std::runtime_error`. -/
inductive Signal where
  | error (type : String) (msg : String)
  | NameError (name : StrName)
  | TypeError (msg : String)
  | AttributeError (obj : PyObjectPtr) (name : StrName)
  | runtime_error (msg : String)
deriving DecidableEq, Repr

/-- The outcome of a call into a collaborator: a value and the new VM state, or a thrown
error and the VM state at the throw. -/
inductive Res (α : Type) where
  | ok (a : α) (vm : VM)
  | throw (e : Signal) (vm : VM)
deriving DecidableEq, Repr

/-- The outcome of a piece of the loop body: it goes on with a value (`ok`), `run_frame`
returns (`return_`), an error propagates out of `run_frame` (`raise`, with the state at the
throw), or the C++ program has no defined behaviour (a pop of an empty stack, an index out of
range, a dereferenced null pointer). -/
inductive Result (α : Type) where
  | ok (a : α) (vm : VM) (frame : Frame)
  | return_ (v : PyObjectPtr) (vm : VM) (frame : Frame)
  | raise (e : Signal) (vm : VM) (frame : Frame)
  | undefined
deriving DecidableEq, Repr

/-- A piece of the loop body, run on the VM state and the active frame. -/
def Exec (α : Type) : Type := VM → Frame → Result α

/-- Sequencing of two pieces of the loop body. -/
def Exec.bind {α β : Type} (m : Exec α) (k : α → Exec β) : Exec β := fun vm f =>
  match m vm f with
  | .ok a vm1 f1 => k a vm1 f1
  | .return_ v vm1 f1 => .return_ v vm1 f1
  | .raise e vm1 f1 => .raise e vm1 f1
  | .undefined => .undefined

instance : Monad Exec where
  pure a := fun vm f => .ok a vm f
  bind := Exec.bind

/-! ## The collaborators -/

/-- A call into a collaborator.  It runs while the active frame is on the call stack of the
VM, so it is given that frame to look at (the collector scans its operand stack), and it may
change the VM state. -/
abbrev Service (α : Type) : Type := Frame → VM → Res α

/-- Modelled from the spec: the interface the loop consumes from the object model, the call
protocol, the compiler and the frame (section 6), and the constant tables of the VM.  None
of these is defined in `ceval.h`. -/
structure Ext where
  /-- The collection check point `heap._auto_collect(this)`. -/
  _auto_collect : Frame → VM → VM
  asRepr : PyObjectPtr → Service PyObjectPtr
  asStr : PyObjectPtr → Service PyObjectPtr
  asIter : PyObjectPtr → Service PyObjectPtr
  asBool : PyObjectPtr → Service Bool
  num_negated : PyObjectPtr → Service PyObjectPtr
  getattr : PyObjectPtr → StrName → Service PyObjectPtr
  setattr : PyObjectPtr → StrName → PyObjectPtr → Service Unit
  /-- The call `fast_call(name, args)` of a protocol method; `args[0]` is the receiver. -/
  fast_call : StrName → Args → Service PyObjectPtr
  /-- The call protocol `call(callable, args, kwargs, opCall)`. -/
  call : PyObjectPtr → Args → Args → Bool → Service PyObjectPtr
  /-- The method call `call(obj, name, args)`. -/
  call_method : PyObjectPtr → StrName → Args → Service PyObjectPtr
  unpack_args : Args → Service Args
  /-- The iterator protocol `PyIter_AS_C(obj)->next()`; `nullptr` when exhausted. -/
  next : PyObjectPtr → Service PyObjectPtr
  /-- The compiler `compile(source, filename, EXEC_MODE)`. -/
  compile : String → String → Service CodeObject
  _exec : CodeObject → PyObjectPtr → Service PyObjectPtr
  CAST_Str : PyObjectPtr → Service String
  CAST_int : PyObjectPtr → Service Int
  CAST_bool : PyObjectPtr → Service Bool
  CAST_Function : PyObjectPtr → Service Function
  CAST_Tuple : PyObjectPtr → Service Args
  /-- The in-place append `CAST(List&, list).push_back(obj)`. -/
  list_push_back : PyObjectPtr → PyObjectPtr → Service Unit
  VAR_Str : String → Service PyObjectPtr
  VAR_List : Args → Service PyObjectPtr
  VAR_Tuple : Args → Service PyObjectPtr
  VAR_Slice : Slice → Service PyObjectPtr
  VAR_Function : Function → Service PyObjectPtr
  VAR_StarWrapper : PyObjectPtr → Service PyObjectPtr
  /-- What the block-exit jump does to the frame besides setting the program counter: the
  unwinding of the block-scoped resources between the current position and the target. -/
  exit_blocks : Frame → Int → Frame
  /-- The quoting `Str::escape(true)`. -/
  escape : String → String
  OP_NAMES : Opcode → String
  BINARY_SPECIAL_METHODS : List StrName
  COMPARE_SPECIAL_METHODS : List StrName
  BITWISE_SPECIAL_METHODS : List StrName

def __getitem__ : StrName := ⟨"__getitem__"⟩
def __setitem__ : StrName := ⟨"__setitem__"⟩
def __delitem__ : StrName := ⟨"__delitem__"⟩
def __contains__ : StrName := ⟨"__contains__"⟩
def m_eval : StrName := ⟨"eval"⟩
def m_dict : StrName := ⟨"dict"⟩
def m_set : StrName := ⟨"set"⟩
def m_add : StrName := ⟨"add"⟩

/-- `VAR(bool)`: the singleton for a C++ `bool`. -/
def VAR_bool (b : Bool) : PyObjectPtr := if b then .True else .False

/-! ## Primitives of the loop body -/

/-- An array access `a[i]` with a C++ `int` index: no value outside the array. -/
def index? {α : Type} (a : List α) (i : Int) : Option α :=
  if 0 ≤ i then a[i.toNat]? else none

/-- Undefined behaviour. -/
def undefined {α : Type} : Exec α := fun _ _ => .undefined

/-- A thrown error: it leaves `run_frame` with the state at the throw. -/
def throw_ {α : Type} (e : Signal) : Exec α := fun vm f => .raise e vm f

/-- The `return` of `run_frame`. -/
def return_ {α : Type} (v : PyObjectPtr) : Exec α := fun vm f => .return_ v vm f

/-- An optional value that has to be there. -/
def defined {α : Type} : Option α → Exec α
  | some a => pure a
  | none => undefined

def getFrame : Exec Frame := fun vm f => .ok f vm f

def getVM : Exec VM := fun vm f => .ok vm vm f

def setVM (vm : VM) : Exec Unit := fun _ f => .ok () vm f

def setFrame (f : Frame) : Exec Unit := fun vm _ => .ok () vm f

/-- A call into a collaborator from the loop body. -/
def service {α : Type} (g : Service α) : Exec α := fun vm f =>
  match g f vm with
  | .ok a vm1 => .ok a vm1 f
  | .throw e vm1 => .raise e vm1 f

/-- Modelled from the spec: `Frame::push`. -/
def push (v : PyObjectPtr) : Exec Unit := fun vm f =>
  .ok () vm { f with stack := f.stack ++ [v] }

/-- Modelled from the spec: `Frame::popx`, removes and yields the top value. -/
def popx : Exec PyObjectPtr := fun vm f =>
  match f.stack.getLast? with
  | some v => .ok v vm { f with stack := f.stack.dropLast }
  | none => .undefined

/-- Modelled from the spec: `Frame::pop`. -/
def pop : Exec Unit := do
  let _ ← popx
  pure ()

/-- Modelled from the spec: `Frame::top`, read as a value. -/
def top : Exec PyObjectPtr := fun vm f =>
  match f.stack.getLast? with
  | some v => .ok v vm f
  | none => .undefined

/-- Modelled from the spec: `Frame::top_1`, the value just below the top, read as a value. -/
def top_1 : Exec PyObjectPtr := fun vm f =>
  match f.stack.dropLast.getLast? with
  | some v => .ok v vm f
  | none => .undefined

/-- Modelled from the spec: the assignment `frame->top() = v`. -/
def set_top (v : PyObjectPtr) : Exec Unit := fun vm f =>
  match f.stack.getLast? with
  | some _ => .ok () vm { f with stack := f.stack.dropLast ++ [v] }
  | none => .undefined

/-- Modelled from the spec: `Frame::popx_n_reversed`, removes the top `n` values and yields
them in their original (push) order. -/
def popx_n_reversed (n : Int) : Exec Args := fun vm f =>
  if 0 ≤ n ∧ n.toNat ≤ f.stack.length then
    .ok (f.stack.drop (f.stack.length - n.toNat)) vm
      { f with stack := f.stack.take (f.stack.length - n.toNat) }
  else .undefined

/-- Modelled from the spec: `Frame::top_n_reversed`, the top `n` values in their original
(push) order, left on the stack. -/
def top_n_reversed (n : Int) : Exec Args := fun vm f =>
  if 0 ≤ n ∧ n.toNat ≤ f.stack.length then
    .ok (f.stack.drop (f.stack.length - n.toNat)) vm f
  else .undefined

/-- Modelled from the spec: `Frame::pop_n`. -/
def pop_n (n : Int) : Exec Unit := do
  let _ ← popx_n_reversed n
  pure ()

/-- Modelled from the spec: `Frame::next_bytecode`, fetches the operation at the program
counter and advances the counter. -/
def next_bytecode : Exec Bytecode := fun vm f =>
  match index? f.co.codes f.pc with
  | some byte => .ok byte vm { f with pc := f.pc + 1 }
  | none => .undefined

/-- Modelled from the spec: `Frame::jump_abs`, the absolute jump to an instruction offset. -/
def jump_abs (target : Int) : Exec Unit := fun vm f =>
  .ok () vm { f with pc := target }

/-- Modelled from the spec: `Frame::jump_abs_break`, the jump with block exit: the absolute
jump that additionally unwinds the block-scoped resources between the current position and
the target. -/
def jump_abs_break (ext : Ext) (target : Int) : Exec Unit := fun vm f =>
  .ok () vm { ext.exit_blocks f target with pc := target }

/-- The name `frame->co->names[arg]`. -/
def co_names (arg : Int) : Exec StrName := do
  let f ← getFrame
  defined (index? f.co.names arg)

/-- Modelled from the spec: `Frame::f_locals`, the locals table, which is the first scope. -/
def f_locals : Exec NameDict := do
  let f ← getFrame
  defined (f.names[0]?).join

/-- Modelled from the spec: `Frame::f_globals`, the module globals table. -/
def f_globals : Exec NameDict := do
  let f ← getFrame
  defined (f.names[f.globals_at]?).join

/-- A write through the reference `frame->f_locals()`. -/
def set_f_locals (d : NameDict) : Exec Unit := do
  let f ← getFrame
  let _ ← f_locals
  setFrame { f with names := f.names.set 0 (some d) }

/-- A write through the reference `frame->f_globals()`. -/
def set_f_globals (d : NameDict) : Exec Unit := do
  let f ← getFrame
  let _ ← f_globals
  setFrame { f with names := f.names.set f.globals_at (some d) }

/-- Modelled from the spec: the attribute table `obj->attr()` of an object that has one
(`obj->is_attr_valid()`). -/
def attr? (vm : VM) (obj : PyObjectPtr) : Option NameDict := vm.attrs.lookup obj

/-- A write through the reference `obj->attr()`. -/
def set_attr (obj : PyObjectPtr) (d : NameDict) : Exec Unit := do
  let vm ← getVM
  setVM { vm with attrs := vm.attrs.map (fun e => if e.1 = obj then (obj, d) else e) }

/-- Modelled from the spec: `new_module`, creates and registers a new module object. -/
def new_module (name : StrName) : Exec PyObjectPtr := do
  let vm ← getVM
  let new_mod := PyObjectPtr.obj vm.next_addr
  setVM { vm with _modules := vm._modules.set name new_mod,
                  attrs := vm.attrs ++ [(new_mod, [])],
                  next_addr := vm.next_addr + 1 }
  pure new_mod

/-- Modelled from the spec: `_read_file_cwd`, the content of a file of the working
directory, when there is one. -/
def _read_file_cwd (vm : VM) (path : String) : Option String := vm.cwd.lookup path

/-! ## The cases of the switch -/

/-- The probing loop of `OP_LOAD_NAME` over the rest of the scope chain, from `names[i]` on:
`do{ val = names[i++]->try_get(name); if(val != nullptr){ push(val); break; } }
while(names[i] != nullptr);`. -/
def load_name_loop (name : StrName) : List (Option NameDict) → Exec Unit
  | some d :: rest =>
    match d.try_get name with
    | .nullptr =>
      match rest with
      | some _ :: _ => load_name_loop name rest
      | none :: _ => pure ()
      | [] => undefined
    | val => push val
  | none :: _ => undefined
  | [] => undefined

/-- The rendering loop of `OP_BUILD_STRING`: `ss << CAST(Str, asStr(items[i]))`. -/
def build_string_loop (ext : Ext) : Args → String → Exec String
  | [], ss => pure ss
  | item :: items, ss => do
    let s ← service (ext.asStr item)
    let str ← service (ext.CAST_Str s)
    build_string_loop ext items (ss ++ str)

/-- The loop of `OP_IMPORT_STAR` over the attributes of the module. -/
def import_star_loop : List (StrName × PyObjectPtr) → Exec Unit
  | [] => pure ()
  | (name, value) :: items => do
    let s := name.str
    if s.isEmpty || s.front == '_' then
      import_star_loop items
    else
      let g ← f_globals
      set_f_globals (g.set name value)
      import_star_loop items

/-- The two call cases without keyword arguments, `OP_CALL` and `OP_CALL_UNPACK`. -/
def op_call (ext : Ext) (byte : Bytecode) : Exec Unit := do
  let args ← popx_n_reversed byte.arg
  let args ← if byte.op = .OP_CALL_UNPACK then service (ext.unpack_args args) else pure args
  let callable ← popx
  let ret ← service (ext.call callable args [] true)
  if ret = ._py_op_call then return_ ret
  push ret

/-- The two call cases with keyword arguments, `OP_CALL_KWARGS` and
`OP_CALL_KWARGS_UNPACK`. -/
def op_call_kwargs (ext : Ext) (byte : Bytecode) : Exec Unit := do
  let ARGC : Int := Int.land byte.arg 0xFFFF
  let KWARGC : Int := Int.land (Int.shiftRight byte.arg 16) 0xFFFF
  let kwargs ← popx_n_reversed (KWARGC * 2)
  let args ← popx_n_reversed ARGC
  let args ←
    if byte.op = .OP_CALL_KWARGS_UNPACK then service (ext.unpack_args args) else pure args
  let callable ← popx
  let ret ← service (ext.call callable args kwargs true)
  if ret = ._py_op_call then return_ ret
  push ret

/-- The case `OP_IMPORT_NAME`. -/
def op_import_name (ext : Ext) (byte : Bytecode) : Exec Unit := do
  let name ← co_names byte.arg
  let vm ← getVM
  let ext_mod := vm._modules.try_get name
  if ext_mod = .nullptr then
    let source ←
      match vm._lazy_modules.lookup name with
      | none =>
        match _read_file_cwd vm (name.str ++ ".py") with
        | none =>
          throw_ (.error "ImportError" ("module " ++ ext.escape name.str ++ " not found"))
        | some source => pure source
      | some source => do
        setVM { vm with _lazy_modules := vm._lazy_modules.filter (fun e => e.1 ≠ name) }
        pure source
    let code ← service (ext.compile source name.str)
    let new_mod ← new_module name
    let _ ← service (ext._exec code new_mod)
    -- `new_mod->attr()._try_perfect_rehash()` does not change the bindings of the table
    pure ()
  push ext_mod

/-- The body of the `switch (byte.op)` of `run_frame`, case by case in the order of the
source; `pure ()` at the end of a case is its `continue`. -/
def dispatch (ext : Ext) (byte : Bytecode) : Exec Unit :=
  match byte.op with
  | .OP_NO_OP => pure ()
  | .OP_POP_TOP => pop
  | .OP_DUP_TOP => do
    let v ← top
    push v
  | .OP_ROT_TWO => do
    let a ← top
    let b ← top_1
    pop_n 2
    push a
    push b
  | .OP_PRINT_EXPR => do
    let obj ← top
    if obj ≠ .None then
      let r ← service (ext.asRepr obj)
      let s ← service (ext.CAST_Str r)
      let vm ← getVM
      setVM { vm with _stdout := vm._stdout ++ s ++ "\n" }
    pop
  | .OP_LOAD_CONST => do
    let f ← getFrame
    let v ← defined (index? f.co.consts byte.arg)
    push v
  | .OP_LOAD_NONE => push .None
  | .OP_LOAD_TRUE => push .True
  | .OP_LOAD_FALSE => push .False
  | .OP_LOAD_ELLIPSIS => push .Ellipsis
  | .OP_LOAD_BUILTIN_EVAL => do
    let vm ← getVM
    let v ← defined ((attr? vm vm.builtins).bind (fun d => d.lookup m_eval))
    push v
  | .OP_LOAD_FUNCTION => do
    let frame ← getFrame
    let obj ← defined (index? frame.co.consts byte.arg)
    let f ← service (ext.CAST_Function obj)
    let v ← service (ext.VAR_Function { f with _module := frame._module })
    push v
  | .OP_LOAD_NAME => do
    let name ← co_names byte.arg
    let f ← getFrame
    load_name_loop name f.names
    throw_ (.NameError name)
  | .OP_LOAD_ATTR => do
    let a ← top
    let name ← co_names byte.arg
    let v ← service (ext.getattr a name)
    set_top v
  | .OP_LOAD_SUBSCR => do
    let b ← popx
    let a ← top
    let v ← service (ext.fast_call __getitem__ [a, b])
    set_top v
  | .OP_STORE_LOCAL => do
    let name ← co_names byte.arg
    let v ← popx
    let d ← f_locals
    set_f_locals (d.set name v)
  | .OP_STORE_GLOBAL => do
    let name ← co_names byte.arg
    let v ← popx
    let d ← f_globals
    set_f_globals (d.set name v)
  | .OP_STORE_ATTR => do
    let name ← co_names byte.arg
    let a ← top
    let val ← top_1
    service (ext.setattr a name val)
    pop_n 2
  | .OP_STORE_SUBSCR => do
    let b ← popx
    let a ← popx
    let val ← popx
    let _ ← service (ext.fast_call __setitem__ [a, b, val])
    pure ()
  | .OP_DELETE_LOCAL => do
    let name ← co_names byte.arg
    let d ← f_locals
    if d.contains name then set_f_locals (d.erase name)
    else throw_ (.NameError name)
  | .OP_DELETE_GLOBAL => do
    let name ← co_names byte.arg
    let d ← f_globals
    if d.contains name then set_f_globals (d.erase name)
    else throw_ (.NameError name)
  | .OP_DELETE_ATTR => do
    let a ← popx
    let name ← co_names byte.arg
    let vm ← getVM
    match attr? vm a with
    | none => throw_ (.TypeError "cannot delete attribute")
    | some d =>
      if !d.contains name then throw_ (.AttributeError a name)
      set_attr a (d.erase name)
  | .OP_DELETE_SUBSCR => do
    let b ← popx
    let a ← popx
    let _ ← service (ext.fast_call __delitem__ [a, b])
    pure ()
  | .OP_BUILD_LIST => do
    let items ← popx_n_reversed byte.arg
    let v ← service (ext.VAR_List items)
    push v
  | .OP_BUILD_DICT => do
    let items ← popx_n_reversed byte.arg
    let t ← service (ext.VAR_Tuple items)
    let vm ← getVM
    let ctor ← defined ((attr? vm vm.builtins).bind (fun d => d.lookup m_dict))
    let obj ← service (ext.call ctor [t] [] false)
    push obj
  | .OP_BUILD_SET => do
    let items ← popx_n_reversed byte.arg
    let t ← service (ext.VAR_Tuple items)
    let vm ← getVM
    let ctor ← defined ((attr? vm vm.builtins).bind (fun d => d.lookup m_set))
    let obj ← service (ext.call ctor [t] [] false)
    push obj
  | .OP_BUILD_SLICE => do
    let step ← popx
    let stop ← popx
    let start ← popx
    let s : Slice := {}
    let s ← if start ≠ .None then do
        let i ← service (ext.CAST_int start)
        pure { s with start := some i }
      else pure s
    let s ← if stop ≠ .None then do
        let i ← service (ext.CAST_int stop)
        pure { s with stop := some i }
      else pure s
    let s ← if step ≠ .None then do
        let i ← service (ext.CAST_int step)
        pure { s with step := some i }
      else pure s
    let v ← service (ext.VAR_Slice s)
    push v
  | .OP_BUILD_TUPLE => do
    let items ← popx_n_reversed byte.arg
    let v ← service (ext.VAR_Tuple items)
    push v
  | .OP_BUILD_STRING => do
    let items ← top_n_reversed byte.arg
    let ss ← build_string_loop ext items ""
    pop_n byte.arg
    let v ← service (ext.VAR_Str ss)
    push v
  | .OP_BINARY_OP => do
    let a1 ← popx
    let a0 ← top
    let name ← defined (index? ext.BINARY_SPECIAL_METHODS byte.arg)
    let v ← service (ext.fast_call name [a0, a1])
    set_top v
  | .OP_COMPARE_OP => do
    let a1 ← popx
    let a0 ← top
    let name ← defined (index? ext.COMPARE_SPECIAL_METHODS byte.arg)
    let v ← service (ext.fast_call name [a0, a1])
    set_top v
  | .OP_BITWISE_OP => do
    let a1 ← popx
    let a0 ← top
    let name ← defined (index? ext.BITWISE_SPECIAL_METHODS byte.arg)
    let v ← service (ext.fast_call name [a0, a1])
    set_top v
  | .OP_IS_OP => do
    let rhs ← popx
    let lhs ← top
    let ret_c : Bool := decide (lhs = rhs)
    let ret_c := if byte.arg = 1 then !ret_c else ret_c
    set_top (VAR_bool ret_c)
  | .OP_CONTAINS_OP => do
    let a0 ← popx
    let a1 ← top
    let ret ← service (ext.fast_call __contains__ [a0, a1])
    let ret_c ← service (ext.CAST_bool ret)
    let ret_c := if byte.arg = 1 then !ret_c else ret_c
    set_top (VAR_bool ret_c)
  | .OP_JUMP_ABSOLUTE => jump_abs byte.arg
  | .OP_POP_JUMP_IF_FALSE => do
    let v ← popx
    let b ← service (ext.asBool v)
    if !b then jump_abs byte.arg
  | .OP_JUMP_IF_TRUE_OR_POP => do
    let v ← top
    let b ← service (ext.asBool v)
    if b = true then jump_abs byte.arg
    else pop
  | .OP_JUMP_IF_FALSE_OR_POP => do
    let v ← top
    let b ← service (ext.asBool v)
    if b = false then jump_abs byte.arg
    else pop
  | .OP_LOOP_CONTINUE => do
    let f ← getFrame
    let blk ← defined f.co.blocks[byte.block]?
    jump_abs blk.start
  | .OP_LOOP_BREAK => do
    let f ← getFrame
    let blk ← defined f.co.blocks[byte.block]?
    jump_abs_break ext blk.end_
  | .OP_GOTO => do
    let label ← co_names byte.arg
    let f ← getFrame
    match f.co.labels.lookup label with
    | none => throw_ (.error "KeyError" ("label " ++ ext.escape label.str ++ " not found"))
    | some target => jump_abs_break ext target
  | .OP_CALL => op_call ext byte
  | .OP_CALL_UNPACK => op_call ext byte
  | .OP_CALL_KWARGS => op_call_kwargs ext byte
  | .OP_CALL_KWARGS_UNPACK => op_call_kwargs ext byte
  | .OP_RETURN_VALUE => do
    let v ← popx
    return_ v
  | .OP_LIST_APPEND => do
    let obj ← popx
    let list ← top_1
    service (ext.list_push_back list obj)
  | .OP_DICT_ADD => do
    let kv ← popx
    let t ← service (ext.CAST_Tuple kv)
    let d ← top_1
    let _ ← service (ext.call_method d __setitem__ t)
    pure ()
  | .OP_SET_ADD => do
    let obj ← popx
    let s ← top_1
    let _ ← service (ext.call_method s m_add [obj])
    pure ()
  | .OP_UNARY_NEGATIVE => do
    let v ← top
    let r ← service (ext.num_negated v)
    set_top r
  | .OP_UNARY_NOT => do
    let v ← top
    let b ← service (ext.asBool v)
    set_top (VAR_bool (!b))
  | .OP_UNARY_STAR => do
    let v ← top
    let r ← service (ext.VAR_StarWrapper v)
    set_top r
  | .OP_GET_ITER => do
    let v ← top
    let r ← service (ext.asIter v)
    set_top r
  | .OP_FOR_ITER => do
    let it ← top
    let obj ← service (ext.next it)
    if obj ≠ .nullptr then push obj
    else
      let f ← getFrame
      let blk ← defined f.co.blocks[byte.block]?
      jump_abs_break ext blk.end_
  | .OP_IMPORT_NAME => op_import_name ext byte
  | .OP_IMPORT_STAR => do
    let obj ← popx
    let vm ← getVM
    let d ← defined (attr? vm obj)
    import_star_loop d.items
  | op => throw_ (.runtime_error ("opcode " ++ ext.OP_NAMES op ++ " is not implemented"))

/-! ## The loop -/

/-- One iteration of the `while(true)` of `run_frame`: the collection check point, the fetch
of the next operation and the switch. -/
def step (ext : Ext) : Exec Unit := fun vm f =>
  (next_bytecode >>= dispatch ext) (ext._auto_collect f vm) f

/-- How a call of `run_frame` ends. -/
inductive Outcome where
  | returned (v : PyObjectPtr) (vm : VM) (frame : Frame)
  | raised (e : Signal) (vm : VM) (frame : Frame)
  | undefined
deriving DecidableEq, Repr

/-- The function `VM::run_frame`, with a bound on the number of iterations of its loop:
`none` when the loop has not ended within `fuel` iterations. -/
def run_frame (ext : Ext) : Nat → VM → Frame → Option Outcome
  | 0, _, _ => none
  | fuel + 1, vm, f =>
    match step ext vm f with
    | .ok _ vm1 f1 => run_frame ext fuel vm1 f1
    | .return_ v vm1 f1 => some (.returned v vm1 f1)
    | .raise e vm1 f1 => some (.raised e vm1 f1)
    | .undefined => some .undefined

/-- The first `k` iterations of the loop of `run_frame`, when none of them leaves it. -/
def steps (ext : Ext) : Nat → Exec Unit
  | 0 => pure ()
  | k + 1 => do
    step ext
    steps ext k

/-- What a call case does once the arguments have been assembled and the callee popped:
the call, then `if(ret == _py_op_call) return ret; frame->push(ret);`. -/
def after_call (ext : Ext) (callee : PyObjectPtr) (args kwargs : Args) (vm0 : VM)
    (f1 : Frame) : Result Unit :=
  match ext.call callee args kwargs true f1 vm0 with
  | .ok ret vm1 =>
    if ret = ._py_op_call then .return_ ret vm1 f1
    else .ok () vm1 { f1 with stack := f1.stack ++ [ret] }
  | .throw e vm1 => .raise e vm1 f1

/-- The flat alternating name/value bundle `[k1, v1, ..., kK, vK]` of `K` keyword pairs. -/
def flat_kwargs : List (PyObjectPtr × PyObjectPtr) → Args
  | [] => []
  | (k, v) :: kws => k :: v :: flat_kwargs kws

/-- The fixed method table an operator opcode indexes with its argument. -/
def method_table (ext : Ext) : Opcode → List StrName
  | .OP_BINARY_OP => ext.BINARY_SPECIAL_METHODS
  | .OP_COMPARE_OP => ext.COMPARE_SPECIAL_METHODS
  | .OP_BITWISE_OP => ext.BITWISE_SPECIAL_METHODS
  | _ => []

/-! ## Outcomes, tables and decoders used in the statements -/

/-- What an aggregate builder does with the value the object model has made: it is pushed
on the stack `rest` left by the removal of the elements. -/
def push_made (r : Res PyObjectPtr) (f1 : Frame) : Result Unit :=
  match r with
  | .ok agg vm1 => .ok () vm1 { f1 with stack := f1.stack ++ [agg] }
  | .throw e vm1 => .raise e vm1 f1

/-- An operand of `OP_BUILD_SLICE` and the slice component it stands for: `None` for a
component that is left unset, or an integer object, one that is not `None` and that
`CAST(int, _)` reads as `i` without any other effect, for the component `i`. -/
def slice_operand (ext : Ext) (v : PyObjectPtr) (c : Option Int) : Prop :=
  (v = .None ∧ c = none) ∨
  (v ≠ .None ∧ ∃ i, c = some i ∧ ∀ (f : Frame) (vm : VM), ext.CAST_int v f vm = .ok i vm)

/-- The outcome of a membership test that dispatches the method `__contains__` with the
argument bundle `bundle` while the stack is that of `f1`, whose top is to be replaced: the
boolean result of the call, negated exactly when the argument of the opcode is 1, takes the
place of the top, above `rest`. -/
def contains_outcome (ext : Ext) (bundle : Args) (arg : Int) (vm0 : VM) (f1 : Frame)
    (rest : List PyObjectPtr) : Result Unit :=
  match ext.fast_call __contains__ bundle f1 vm0 with
  | .throw e vm1 => .raise e vm1 f1
  | .ok ret vm1 =>
    match ext.CAST_bool ret f1 vm1 with
    | .throw e vm2 => .raise e vm2 f1
    | .ok b vm2 =>
      .ok () vm2 { f1 with stack := rest ++ [VAR_bool (if arg = 1 then !b else b)] }

/-- The import error of `OP_IMPORT_NAME` for the module `name`. -/
def import_error (ext : Ext) (name : StrName) : Signal :=
  .error "ImportError" ("module " ++ ext.escape name.str ++ " not found")

/-- The rest of `OP_IMPORT_NAME` on a module-table miss once the source has been resolved:
the source is compiled, the new module is created, registered and run, and `ext_mod` is
pushed. -/
def import_tail (ext : Ext) (name : StrName) (source : String) (ext_mod : PyObjectPtr) :
    Exec Unit := do
  let code ← service (ext.compile source name.str)
  let new_mod ← new_module name
  let _ ← service (ext._exec code new_mod)
  push ext_mod

/-- The names `OP_IMPORT_STAR` copies: those that are non-empty and do not start with an
underscore, the negation of the test `s.empty() || s[0] == '_'` of the source. -/
def exportable (name : StrName) : Bool := !(name.str.isEmpty || name.str.front == '_')

/-- The globals after the copy of the exportable bindings of `items`, in their order, into
the globals `g`. -/
def star_globals : List (StrName × PyObjectPtr) → NameDict → NameDict
  | [], g => g
  | (name, value) :: items, g =>
    if exportable name then star_globals items (g.set name value) else star_globals items g

/-- The case labels of the `switch (byte.op)` of `run_frame`, in the order of the source. -/
def switch_cases : List Opcode :=
  [.OP_NO_OP, .OP_POP_TOP, .OP_DUP_TOP, .OP_ROT_TWO, .OP_PRINT_EXPR,
   .OP_LOAD_CONST, .OP_LOAD_NONE, .OP_LOAD_TRUE, .OP_LOAD_FALSE, .OP_LOAD_ELLIPSIS,
   .OP_LOAD_BUILTIN_EVAL, .OP_LOAD_FUNCTION, .OP_LOAD_NAME, .OP_LOAD_ATTR, .OP_LOAD_SUBSCR,
   .OP_STORE_LOCAL, .OP_STORE_GLOBAL, .OP_STORE_ATTR, .OP_STORE_SUBSCR,
   .OP_DELETE_LOCAL, .OP_DELETE_GLOBAL, .OP_DELETE_ATTR, .OP_DELETE_SUBSCR,
   .OP_BUILD_LIST, .OP_BUILD_DICT, .OP_BUILD_SET, .OP_BUILD_SLICE, .OP_BUILD_TUPLE,
   .OP_BUILD_STRING, .OP_BINARY_OP, .OP_COMPARE_OP, .OP_BITWISE_OP, .OP_IS_OP,
   .OP_CONTAINS_OP, .OP_JUMP_ABSOLUTE, .OP_POP_JUMP_IF_FALSE, .OP_JUMP_IF_TRUE_OR_POP,
   .OP_JUMP_IF_FALSE_OR_POP, .OP_LOOP_CONTINUE, .OP_LOOP_BREAK, .OP_GOTO,
   .OP_CALL, .OP_CALL_UNPACK, .OP_CALL_KWARGS, .OP_CALL_KWARGS_UNPACK, .OP_RETURN_VALUE,
   .OP_LIST_APPEND, .OP_DICT_ADD, .OP_SET_ADD,
   .OP_UNARY_NEGATIVE, .OP_UNARY_NOT, .OP_UNARY_STAR,
   .OP_GET_ITER, .OP_FOR_ITER, .OP_IMPORT_NAME, .OP_IMPORT_STAR]

/-- The reserved opcodes: class, decorator and closure setup, assertion, exception matching
and raising, yield, with-statement and try-block bracketing. -/
def reserved_opcodes : List Opcode :=
  [.OP_SETUP_DECORATOR, .OP_SETUP_CLOSURE, .OP_BEGIN_CLASS, .OP_END_CLASS,
   .OP_STORE_CLASS_ATTR, .OP_ASSERT, .OP_EXCEPTION_MATCH, .OP_RAISE, .OP_RE_RAISE,
   .OP_YIELD_VALUE, .OP_WITH_ENTER, .OP_WITH_EXIT, .OP_TRY_BLOCK_ENTER, .OP_TRY_BLOCK_EXIT]

/-- The renderings of `items` from left to right, each one by `asStr` and `CAST(Str, _)`
called while the frame `fr` is the active frame, appended to `ss` in that order. -/
def render_concat (ext : Ext) (fr : Frame) : Args → String → VM → Res String
  | [], ss, vm => .ok ss vm
  | item :: items, ss, vm =>
    match ext.asStr item fr vm with
    | .throw e vm1 => .throw e vm1
    | .ok s vm1 =>
      match ext.CAST_Str s fr vm1 with
      | .throw e vm2 => .throw e vm2
      | .ok str vm2 => render_concat ext fr items (ss ++ str) vm2

/-- The outcome of `OP_PRINT_EXPR` on the value `v` when the rendering `asRepr` is called
while the frame `fr` is the active frame: nothing is emitted for `None`, the rendering and a
newline otherwise, and the stack is `rest` afterwards. -/
def print_outcome (ext : Ext) (v : PyObjectPtr) (vm0 : VM) (fr : Frame)
    (rest : List PyObjectPtr) : Result Unit :=
  if v = .None then .ok () vm0 { fr with stack := rest }
  else
    match ext.asRepr v fr vm0 with
    | .throw e vm1 => .raise e vm1 fr
    | .ok r vm1 =>
      match ext.CAST_Str r fr vm1 with
      | .throw e vm2 => .raise e vm2 fr
      | .ok s vm2 =>
        .ok () { vm2 with _stdout := vm2._stdout ++ s ++ "\n" } { fr with stack := rest }

/-- The outcome of `OP_BUILD_STRING` on the values `xs` when every rendering is called while
the frame `fr` is the active frame: the string made from the concatenation of the renderings
is pushed on `rest`. -/
def build_string_outcome (ext : Ext) (xs : Args) (vm0 : VM) (fr : Frame)
    (rest : List PyObjectPtr) : Result Unit :=
  match render_concat ext fr xs "" vm0 with
  | .throw e vm1 => .raise e vm1 fr
  | .ok ss vm1 => push_made (ext.VAR_Str ss { fr with stack := rest } vm1)
      { fr with stack := rest }

/-- The positional argument count `byte.arg & 0xFFFF` of `OP_CALL_KWARGS`. -/
def ARGC (arg : Int) : Int := Int.land arg 0xFFFF

/-- The keyword argument count `(byte.arg >> 16) & 0xFFFF` of `OP_CALL_KWARGS`. -/
def KWARGC (arg : Int) : Int := Int.land (Int.shiftRight arg 16) 0xFFFF

/-- The value of a C++ `int` (32 bits, two's complement) that holds `n` modulo `2^32`. -/
def wrap_int32 (n : Int) : Int := (n + 2147483648) % 4294967296 - 2147483648

/-- The packed argument `(k << 16) | a` as a C++ `int`. -/
def pack_call_arg (k a : Nat) : Int := wrap_int32 (((k <<< 16 ||| a : Nat) : Nat) : Int)

/-! ## Sample data for the closed examples -/

/-- A small instance of the collaborators: the call protocol yields the callable itself, a
protocol method yields its receiver, truth is identity with `True`, the collection check
point changes nothing, and an iterator produces `obj 100`, then `obj 101`, and is then
exhausted (the number of values produced so far is kept in `next_addr`). -/
def sampleExt : Ext where
  _auto_collect := fun _ vm => vm
  asRepr := fun v _ vm => .ok v vm
  asStr := fun v _ vm => .ok v vm
  asIter := fun v _ vm => .ok v vm
  asBool := fun v _ vm => .ok (decide (v = .True)) vm
  num_negated := fun v _ vm => .ok v vm
  getattr := fun _ _ _ vm => .ok .None vm
  setattr := fun _ _ _ _ vm => .ok () vm
  fast_call := fun _ args _ vm => .ok (args.headD .None) vm
  call := fun callable _ _ _ _ vm => .ok callable vm
  call_method := fun obj _ _ _ vm => .ok obj vm
  unpack_args := fun args _ vm => .ok args vm
  next := fun _ _ vm =>
    if vm.next_addr < 2 then
      .ok (.obj (100 + vm.next_addr)) { vm with next_addr := vm.next_addr + 1 }
    else .ok .nullptr vm
  compile := fun _ _ _ vm => .ok ⟨[], [], [], [], []⟩ vm
  _exec := fun _ _ _ vm => .ok .None vm
  CAST_Str := fun _ _ vm => .ok "" vm
  CAST_int := fun _ _ vm => .ok 0 vm
  CAST_bool := fun v _ vm => .ok (decide (v = .True)) vm
  CAST_Function := fun _ _ vm => .ok ⟨0, .None⟩ vm
  CAST_Tuple := fun _ _ vm => .ok [] vm
  list_push_back := fun _ _ _ vm => .ok () vm
  VAR_Str := fun _ _ vm => .ok (.obj 0) vm
  VAR_List := fun _ _ vm => .ok (.obj 0) vm
  VAR_Tuple := fun _ _ vm => .ok (.obj 0) vm
  VAR_Slice := fun _ _ vm => .ok (.obj 0) vm
  VAR_Function := fun _ _ vm => .ok (.obj 0) vm
  VAR_StarWrapper := fun _ _ vm => .ok (.obj 0) vm
  exit_blocks := fun f _ => f
  escape := fun s => "<" ++ s ++ ">"
  OP_NAMES := fun _ => "OP"
  BINARY_SPECIAL_METHODS := [⟨"__add__"⟩, ⟨"__sub__"⟩, ⟨"__mul__"⟩]
  COMPARE_SPECIAL_METHODS := [⟨"__lt__"⟩, ⟨"__le__"⟩, ⟨"__eq__"⟩]
  BITWISE_SPECIAL_METHODS := [⟨"__lshift__"⟩, ⟨"__rshift__"⟩, ⟨"__and__"⟩]

/-- A VM state with an empty module table and one lazy module source, that of `m`. -/
def sampleVM : VM where
  _modules := []
  _lazy_modules := [(⟨"m"⟩, "x = 1")]
  _stdout := ""
  attrs := []
  next_addr := 0
  cwd := []
  builtins := .None

/-- A frame about to run `codes` on the operand stack `stack`.  Its scope chain is the locals
and the globals, which both bind `x` and nothing else, then the null sentinel. -/
def sampleFrame (codes : List Bytecode) (stack : List PyObjectPtr) : Frame where
  co := { codes := codes, consts := [.obj 7, .obj 8], names := [⟨"x"⟩, ⟨"m"⟩, ⟨"y"⟩],
          blocks := [⟨0, 5⟩], labels := [(⟨"x"⟩, 3)] }
  pc := 0
  stack := stack
  names := [some [(⟨"x"⟩, .obj 1)], some [(⟨"x"⟩, .obj 2)], none]
  _module := .None
  globals_at := 1

/-- Two imports of the module `m` in succession. -/
def importTwice : List Bytecode := [⟨.OP_IMPORT_NAME, 1, 0⟩, ⟨.OP_IMPORT_NAME, 1, 0⟩]

/-- Two constant loads followed by a return. -/
def loadTwoReturn : List Bytecode :=
  [⟨.OP_LOAD_CONST, 0, 0⟩, ⟨.OP_LOAD_CONST, 1, 0⟩, ⟨.OP_RETURN_VALUE, 0, 0⟩]

/-- A call with one positional argument and one keyword pair: the argument is
`(1 << 16) | 1`. -/
def callOneKeyword : List Bytecode := [⟨.OP_CALL_KWARGS, 65537, 0⟩]

/-- A call with one positional argument, followed by another operation. -/
def callThenPop : List Bytecode := [⟨.OP_CALL, 1, 0⟩, ⟨.OP_POP_TOP, 0, 0⟩]

/-- The sample collaborators with integer objects: `obj n` is the integer `n`. -/
def intExt : Ext :=
  { sampleExt with
    CAST_int := fun v _ vm =>
      match v with
      | .obj n => .ok n vm
      | _ => .throw (.TypeError "expected int") vm }

/-- The sample collaborators with string objects: the rendering of a value is the value
itself, and the object `obj n` is read as a string of `n` letters `a`. -/
def strExt : Ext :=
  { sampleExt with
    CAST_Str := fun v _ vm =>
      match v with
      | .obj n => .ok (String.mk (List.replicate n 'a')) vm
      | _ => .ok "" vm }

/-- A membership test of the needle `True` in the haystack `False`. -/
def containsFrame : Frame := sampleFrame [⟨.OP_CONTAINS_OP, 0, 0⟩] [.obj 9, .True, .False]

/-- A VM state whose working directory holds the source file of the module `y`. -/
def fileVM : VM := { sampleVM with cwd := [("y.py", "z = 2")] }

/-- A VM state in which the module `obj 5` has the attributes `a` and `_b`. -/
def starVM : VM :=
  { sampleVM with attrs := [(.obj 5, [(⟨"a"⟩, .obj 1), (⟨"_b"⟩, .obj 2)])] }

/-- A VM state in which the object `obj 5` has the attributes `x` and `y`. -/
def attrVM : VM :=
  { sampleVM with attrs := [(.obj 5, [(⟨"x"⟩, .obj 1), (⟨"y"⟩, .obj 2)])] }

/-- The sample collaborators with a run of the module that executes bytecode: the module
performs the nested import `import m` and its errors propagate. -/
def nestedExt : Ext :=
  { sampleExt with
    _exec := fun _ _ _ vm =>
      match step sampleExt vm (sampleFrame [⟨.OP_IMPORT_NAME, 1, 0⟩] []) with
      | .ok _ vm1 _ => .ok .None vm1
      | .return_ v vm1 _ => .ok v vm1
      | .raise e vm1 _ => .throw e vm1
      | .undefined => .ok .None vm }

/-! # Theorems -/

/-! ## Lemmas on the primitives -/

/-- One iteration of the loop on a frame whose next operation is `byte`: the switch runs on
the VM state left by the collection check point and on the frame with the counter advanced. -/
theorem step_fetch (ext : Ext) (vm : VM) (f : Frame) (byte : Bytecode)
    (h : index? f.co.codes f.pc = some byte) :
    step ext vm f = dispatch ext byte (ext._auto_collect f vm) { f with pc := f.pc + 1 } := by
  simp [step, next_bytecode, Bind.bind, Exec.bind, h]

theorem index?_append_length {α : Type} (pre : List α) (a : α) (post : List α) :
    index? (pre ++ a :: post) (pre.length : Int) = some a := by
  have h : (pre ++ a :: post)[pre.length]? = some a := by
    rw [List.getElem?_append_right (Nat.le_refl _)]
    simp
  simpa [index?] using h

theorem popx_concat (vm : VM) (f : Frame) (rest : List PyObjectPtr) (v : PyObjectPtr)
    (h : f.stack = rest ++ [v]) :
    popx vm f = .ok v vm { f with stack := rest } := by
  simp [popx, h]

theorem top_concat (vm : VM) (f : Frame) (rest : List PyObjectPtr) (v : PyObjectPtr)
    (h : f.stack = rest ++ [v]) :
    top vm f = .ok v vm f := by
  simp [top, h]

theorem set_top_concat (vm : VM) (f : Frame) (rest : List PyObjectPtr) (v w : PyObjectPtr)
    (h : f.stack = rest ++ [v]) :
    set_top w vm f = .ok () vm { f with stack := rest ++ [w] } := by
  simp [set_top, h]

theorem popx_n_reversed_append (vm : VM) (f : Frame) (n : Int) (rest xs : List PyObjectPtr)
    (hn : n = xs.length) (h : f.stack = rest ++ xs) :
    popx_n_reversed n vm f = .ok xs vm { f with stack := rest } := by
  subst hn
  simp [popx_n_reversed, h]

theorem flat_kwargs_length (kws : List (PyObjectPtr × PyObjectPtr)) :
    (flat_kwargs kws).length = 2 * kws.length := by
  induction kws with
  | nil => rfl
  | cons p kws ih =>
    obtain ⟨k, v⟩ := p
    simp [flat_kwargs, ih]
    omega

/-- When the first `k` iterations do not leave the loop, `run_frame` goes on from the state
they reach. -/
theorem run_frame_steps (ext : Ext) (fuel : Nat) :
    ∀ (k : Nat) (vm : VM) (f : Frame) (vm1 : VM) (f1 : Frame),
      steps ext k vm f = .ok () vm1 f1 →
      run_frame ext (k + fuel) vm f = run_frame ext fuel vm1 f1 := by
  intro k
  induction k with
  | zero =>
    intro vm f vm1 f1 h
    simp [steps, Pure.pure] at h
    obtain ⟨h1, h2⟩ := h
    subst h1 h2
    simp
  | succ k ih =>
    intro vm f vm1 f1 h
    have hk : k + 1 + fuel = (k + fuel) + 1 := by omega
    rw [hk, run_frame]
    simp only [steps, Bind.bind, Exec.bind] at h
    cases hs : step ext vm f with
    | ok a vm2 f2 =>
      rw [hs] at h
      exact ih vm2 f2 vm1 f1 h
    | return_ v vm2 f2 => rw [hs] at h; simp at h
    | raise e vm2 f2 => rw [hs] at h; simp at h
    | undefined => rw [hs] at h; simp at h

/-! ## Name load (C1, C2) -/

theorem try_get_of_not_contains (d : NameDict) (name : StrName)
    (h : d.contains name = false) : d.try_get name = .nullptr := by
  unfold NameDict.contains at h
  unfold NameDict.try_get
  cases hl : List.lookup name d with
  | none => rfl
  | some v => rw [hl] at h; simp at h

theorem load_name_loop_defined (name : StrName) (d : NameDict) (v : PyObjectPtr)
    (post : List (Option NameDict)) (vm : VM) (f : Frame)
    (hv : d.try_get name = v) (hnn : v ≠ .nullptr) :
    ∀ pre : List NameDict, (∀ e ∈ pre, e.try_get name = .nullptr) →
      load_name_loop name (pre.map some ++ some d :: post) vm f
        = .ok () vm { f with stack := f.stack ++ [v] } := by
  intro pre
  induction pre with
  | nil =>
    intro _
    simp only [List.map_nil, List.nil_append, load_name_loop, hv]
    cases v <;> simp_all [push]
  | cons e es ih =>
    intro hpre
    have he : e.try_get name = .nullptr := hpre e (List.mem_cons_self _ _)
    have ih2 := ih (fun e' he' => hpre e' (List.mem_cons_of_mem _ he'))
    cases es with
    | nil =>
      simp only [List.map_nil, List.nil_append, List.map_cons, List.cons_append] at ih2 ⊢
      rw [load_name_loop]
      simp only [he]
      exact ih2
    | cons e2 es2 =>
      simp only [List.map_cons, List.cons_append] at ih2 ⊢
      rw [load_name_loop]
      simp only [he]
      exact ih2

theorem load_name_loop_undefined (name : StrName) (junk : List (Option NameDict))
    (vm : VM) (f : Frame) :
    ∀ scopes : List NameDict, scopes ≠ [] → (∀ d ∈ scopes, d.contains name = false) →
      load_name_loop name (scopes.map some ++ none :: junk) vm f = .ok () vm f := by
  intro scopes
  induction scopes with
  | nil => intro h; exact absurd rfl h
  | cons d ds ih =>
    intro _ hund
    have hd : d.try_get name = .nullptr :=
      try_get_of_not_contains d name (hund d (List.mem_cons_self _ _))
    cases ds with
    | nil => simp [load_name_loop, hd, Pure.pure]
    | cons d2 ds2 =>
      have ih2 := ih (by simp) (fun d' hd' => hund d' (List.mem_cons_of_mem _ hd'))
      simp only [List.map_cons, List.cons_append] at ih2 ⊢
      rw [load_name_loop]
      simp [hd]
      exact ih2

/-- On a name that a scope of the chain binds, `OP_LOAD_NAME` pushes the value of the first
such scope and then raises the name error all the same: the `break` only leaves the probing
loop. -/
theorem load_name_defined_raises (ext : Ext) (vm : VM) (f : Frame) (arg : Int) (blk : Nat)
    (name : StrName) (pre : List NameDict) (d : NameDict) (post : List (Option NameDict))
    (v : PyObjectPtr)
    (hfetch : index? f.co.codes f.pc = some ⟨.OP_LOAD_NAME, arg, blk⟩)
    (hname : index? f.co.names arg = some name)
    (hchain : f.names = pre.map some ++ some d :: post)
    (hpre : ∀ e ∈ pre, e.try_get name = .nullptr)
    (hv : d.try_get name = v) (hnn : v ≠ .nullptr) :
    step ext vm f
      = .raise (.NameError name) (ext._auto_collect f vm)
          { f with pc := f.pc + 1, stack := f.stack ++ [v] } := by
  rw [step_fetch ext vm f _ hfetch]
  simp [dispatch, co_names, getFrame, defined, Bind.bind, Exec.bind, hname, hchain, Pure.pure,
    load_name_loop_defined name d v post _ _ hv hnn pre hpre, throw_]

/-- C1 (the code departs from the specification).  The name `x` is bound in the locals, to
`obj 1`, and in the globals, to `obj 2`, of the frame.  `OP_LOAD_NAME x` pushes the value of
the locals, `obj 1`, and then raises the name error for `x`: the instruction does not
complete without an error, as the specification says it does. -/
theorem C1_load_name_raises_on_defined_name :
    step sampleExt sampleVM (sampleFrame [⟨.OP_LOAD_NAME, 0, 0⟩] [])
      = .raise (.NameError ⟨"x"⟩) sampleVM
          { sampleFrame [⟨.OP_LOAD_NAME, 0, 0⟩] [] with pc := 1, stack := [.obj 1] } := by
  rfl

/-- C2.  On a frame whose scope chain is the non-empty list `scopes` of tables followed by
the null sentinel, and for a name that none of these tables defines, `OP_LOAD_NAME` raises
the name error carrying that name, and the operand stack is the one before the instruction:
nothing has been pushed. -/
theorem C2_load_name_undefined (ext : Ext) (vm : VM) (f : Frame) (arg : Int) (blk : Nat)
    (name : StrName) (scopes : List NameDict) (junk : List (Option NameDict))
    (hfetch : index? f.co.codes f.pc = some ⟨.OP_LOAD_NAME, arg, blk⟩)
    (hname : index? f.co.names arg = some name)
    (hchain : f.names = scopes.map some ++ none :: junk)
    (hne : scopes ≠ [])
    (hundef : ∀ d ∈ scopes, d.contains name = false) :
    step ext vm f
      = .raise (.NameError name) (ext._auto_collect f vm) { f with pc := f.pc + 1 } := by
  rw [step_fetch ext vm f _ hfetch]
  simp [dispatch, co_names, getFrame, defined, Bind.bind, Exec.bind, hname, hchain, Pure.pure,
    load_name_loop_undefined name junk _ _ scopes hne hundef, throw_]

/-- C2 at a concrete frame: the name `y` is in neither scope of the sample frame. -/
theorem C2_load_name_undefined_witness :
    step sampleExt sampleVM (sampleFrame [⟨.OP_LOAD_NAME, 2, 0⟩] [.obj 4])
      = .raise (.NameError ⟨"y"⟩) sampleVM
          { sampleFrame [⟨.OP_LOAD_NAME, 2, 0⟩] [.obj 4] with pc := 1 } :=
  C2_load_name_undefined sampleExt sampleVM (sampleFrame [⟨.OP_LOAD_NAME, 2, 0⟩] [.obj 4]) 2 0
    ⟨"y"⟩ [[(⟨"x"⟩, .obj 1)], [(⟨"x"⟩, .obj 2)]] [] rfl rfl rfl (by simp) (by decide)

/-! ## Constant loads and return (C3) -/

theorem steps_load_const (ext : Ext) (tail : List Bytecode) :
    ∀ (loads : List Bytecode) (vals : List PyObjectPtr) (pre : List Bytecode)
      (vm : VM) (f : Frame),
      (∀ b ∈ loads, b.op = .OP_LOAD_CONST) →
      loads.map (fun b => index? f.co.consts b.arg) = vals.map some →
      f.co.codes = pre ++ loads ++ tail →
      f.pc = pre.length →
      ∃ vm1, steps ext loads.length vm f
        = .ok () vm1 { f with pc := (pre.length + loads.length : Nat),
                              stack := f.stack ++ vals } := by
  intro loads
  induction loads with
  | nil =>
    intro vals pre vm f _ hv _ hpc
    cases vals with
    | nil =>
      refine ⟨vm, ?_⟩
      simp [steps, Pure.pure, ← hpc]
    | cons v vs => simp at hv
  | cons b loads ih =>
    intro vals pre vm f hop hv hcodes hpc
    cases vals with
    | nil => simp at hv
    | cons v vs =>
      simp only [List.map_cons, List.cons.injEq] at hv
      obtain ⟨hv1, hv2⟩ := hv
      have hb : b.op = .OP_LOAD_CONST := hop b (List.mem_cons_self _ _)
      have hfetch : index? f.co.codes f.pc = some b := by
        rw [hcodes, hpc, List.append_assoc, List.cons_append]
        exact index?_append_length pre b (loads ++ tail)
      have hstep : step ext vm f
          = .ok () (ext._auto_collect f vm) { f with pc := f.pc + 1, stack := f.stack ++ [v] } := by
        rw [step_fetch ext vm f b hfetch]
        simp [dispatch, hb, getFrame, defined, Bind.bind, Exec.bind, hv1, Pure.pure, push]
      obtain ⟨vm1, h1⟩ := ih vs (pre ++ [b]) (ext._auto_collect f vm)
        { f with pc := f.pc + 1, stack := f.stack ++ [v] }
        (fun b' hb' => hop b' (List.mem_cons_of_mem _ hb')) hv2
        (by simp [hcodes]) (by simp [hpc])
      refine ⟨vm1, ?_⟩
      simp only [steps, Bind.bind, Exec.bind, hstep, List.length_cons]
      rw [h1]
      simp [Nat.add_assoc, Nat.add_comm 1]

/-- C3.  The bytecode is the constant loads `loads` (there is at least one), whose indices
are in range and select the constants `vals`, followed by `OP_RETURN_VALUE`; the frame starts
at offset 0 with an empty operand stack.  Then after the `k`-th load the stack is exactly the
first `k` of these constants in push order, and `run_frame` returns the last of them, for
every bound on the iterations above the number of loads. -/
theorem C3_load_consts_then_return (ext : Ext) (vm : VM) (f : Frame)
    (loads : List Bytecode) (vals : List PyObjectPtr) (ret : Bytecode) (tail : List Bytecode)
    (hops : ∀ b ∈ loads, b.op = .OP_LOAD_CONST)
    (hvals : loads.map (fun b => index? f.co.consts b.arg) = vals.map some)
    (hne : loads ≠ [])
    (hret : ret.op = .OP_RETURN_VALUE)
    (hcodes : f.co.codes = loads ++ ret :: tail)
    (hpc : f.pc = 0) (hstack : f.stack = []) :
    (∀ k, k ≤ loads.length →
      ∃ vm1, steps ext k vm f = .ok () vm1 { f with pc := (k : Nat), stack := vals.take k }) ∧
    ∃ last, vals.getLast? = some last ∧
      ∀ fuel, loads.length < fuel →
        ∃ vm1, run_frame ext fuel vm f
          = some (.returned last vm1
              { f with pc := (loads.length : Nat) + 1, stack := vals.dropLast }) := by
  have hlen : loads.length = vals.length := by
    have := congrArg List.length hvals
    simpa using this
  have hsteps : ∀ k, k ≤ loads.length →
      ∃ vm1, steps ext k vm f = .ok () vm1 { f with pc := (k : Nat), stack := vals.take k } := by
    intro k hk
    obtain ⟨vm1, h1⟩ := steps_load_const ext (loads.drop k ++ ret :: tail) (loads.take k)
      (vals.take k) [] vm f (fun b hb => hops b (List.mem_of_mem_take hb))
      (by rw [List.map_take, hvals, List.map_take])
      (by simp [hcodes, ← List.append_assoc]) (by simp [hpc])
    refine ⟨vm1, ?_⟩
    have hk2 : (loads.take k).length = k := by simp [hk]
    rw [hk2] at h1
    simpa [hstack] using h1
  refine ⟨hsteps, ?_⟩
  have hvne : vals ≠ [] := by
    intro h
    apply hne
    apply List.eq_nil_of_length_eq_zero
    rw [hlen, h]
    rfl
  refine ⟨vals.getLast hvne, List.getLast?_eq_getLast _ hvne, ?_⟩
  intro fuel hfuel
  obtain ⟨vm1, h1⟩ := hsteps loads.length (Nat.le_refl _)
  obtain ⟨m, rfl⟩ : ∃ m, fuel = loads.length + (m + 1) :=
    ⟨fuel - loads.length - 1, by omega⟩
  rw [run_frame_steps ext (m + 1) loads.length vm f vm1 _ h1, run_frame]
  have hfetch : index? f.co.codes ((loads.length : Nat) : Int) = some ret := by
    rw [hcodes]
    exact index?_append_length loads ret tail
  rw [step_fetch ext vm1
    { f with pc := (loads.length : Nat), stack := vals.take loads.length } ret hfetch]
  refine ⟨ext._auto_collect
    { f with pc := (loads.length : Nat), stack := vals.take loads.length } vm1, ?_⟩
  have htake : vals.take loads.length = vals := by rw [hlen]; exact List.take_length vals
  simp [dispatch, hret, Bind.bind, Exec.bind, popx, htake, List.getLast?_eq_getLast _ hvne,
    return_]

/-- C3 at a concrete code object: two loads, of the constants `obj 7` and `obj 8`. -/
theorem C3_load_consts_then_return_witness :
    ∃ vm1, run_frame sampleExt 3 sampleVM (sampleFrame loadTwoReturn [])
      = some (.returned (.obj 8) vm1
          { sampleFrame loadTwoReturn [] with pc := 3, stack := [.obj 7] }) := by
  obtain ⟨_, last, hlast, hrun⟩ := C3_load_consts_then_return sampleExt sampleVM
    (sampleFrame loadTwoReturn []) [⟨.OP_LOAD_CONST, 0, 0⟩, ⟨.OP_LOAD_CONST, 1, 0⟩]
    [.obj 7, .obj 8] ⟨.OP_RETURN_VALUE, 0, 0⟩ [] (by decide) rfl (by simp) rfl rfl rfl rfl
  have hl : last = .obj 8 := by simpa using hlast.symm
  subst hl
  exact hrun 3 (by decide)

/-! ## Import by name (C4) -/

/-- Whenever `OP_IMPORT_NAME` completes on a name that misses the module table, the value it
has pushed is the null pointer (the stale `ext_mod`), whatever the compiler, `_exec` and the
tables do: the new module is never the value pushed. -/
theorem import_name_miss_pushes_nullptr (ext : Ext) (vm : VM) (f : Frame) (arg : Int)
    (blk : Nat) (name : StrName) (vm1 : VM) (f1 : Frame)
    (hfetch : index? f.co.codes f.pc = some ⟨.OP_IMPORT_NAME, arg, blk⟩)
    (hname : index? f.co.names arg = some name)
    (hmiss : (ext._auto_collect f vm)._modules.try_get name = .nullptr)
    (hok : step ext vm f = .ok () vm1 f1) :
    f1 = { f with pc := f.pc + 1, stack := f.stack ++ [.nullptr] } := by
  rw [step_fetch ext vm f _ hfetch] at hok
  simp only [dispatch, op_import_name, co_names, getFrame, defined, Bind.bind, Exec.bind, hname,
    getVM, hmiss, if_true, Pure.pure] at hok
  generalize ext._auto_collect f vm = vmc at hok
  have key : ∀ (src : String) (vm0 : VM),
      ((service (ext.compile src name.str)).bind fun code =>
        (new_module name).bind fun new_mod =>
          (service (ext._exec code new_mod)).bind fun _ =>
            Exec.bind (fun vm f => Result.ok () vm f) fun _ => push PyObjectPtr.nullptr)
        vm0 { f with pc := f.pc + 1 } = .ok () vm1 f1 →
      f1 = { f with pc := f.pc + 1, stack := f.stack ++ [.nullptr] } := by
    intro src vm0 h
    simp only [Exec.bind, service, new_module, getVM, setVM, Bind.bind, Pure.pure] at h
    generalize ext.compile src name.str _ _ = rc at h
    cases rc with
    | throw e vm2 => simp at h
    | ok code vm2 =>
      dsimp only at h
      generalize ext._exec code _ _ _ = re at h
      cases re with
      | throw e vm3 => simp at h
      | ok r vm3 =>
        simp [push] at h
        exact h.2.symm
  cases hlazy : List.lookup name vmc._lazy_modules with
  | none =>
    simp only [hlazy] at hok
    cases hfile : _read_file_cwd vmc (name.str ++ ".py") with
    | none => simp [hfile, throw_, Exec.bind] at hok
    | some src =>
      simp only [hfile] at hok
      exact key src vmc hok
  | some src =>
    simp only [hlazy] at hok
    exact key src _ hok

/-- C4 (the code departs from the specification).  The module `m` is not in the module table
and its source is in the lazy table.  Two imports of `m` in succession leave the stack
`[nullptr, obj 0]`: the first import registers the new module `obj 0` in the module table but
pushes the null pointer, only the second pushes `obj 0`.  The two imports do not push the
same module object, as the specification says they do. -/
theorem C4_first_import_pushes_null :
    steps sampleExt 2 sampleVM (sampleFrame importTwice [])
      = .ok ()
          { sampleVM with _modules := [(⟨"m"⟩, .obj 0)], _lazy_modules := [],
                          attrs := [(.obj 0, [])], next_addr := 1 }
          { sampleFrame importTwice [] with pc := 2, stack := [.nullptr, .obj 0] } := by
  rfl

/-! ## Calls (C5, C6) -/

/-- C5.  For `OP_CALL_KWARGS` whose argument decodes to the counts `A = ps.length` and
`K = kws.length`, on the stack `rest ++ callee :: ps ++ [k1, v1, ..., kK, vK]`: the call
protocol is invoked with the callable `callee`, the positional bundle `ps` and the keyword
bundle `[k1, v1, ..., kK, vK]`, both in their original order, while the stack it can see is
`rest`, so that `2K + A + 1` values have been removed; when the call yields an ordinary
value `ret` the resulting stack is `rest ++ [ret]`. -/
theorem C5_call_kwargs_bundles (ext : Ext) (vm : VM) (f : Frame) (arg : Int) (blk : Nat)
    (rest : List PyObjectPtr) (callee : PyObjectPtr) (ps : List PyObjectPtr)
    (kws : List (PyObjectPtr × PyObjectPtr))
    (hfetch : index? f.co.codes f.pc = some ⟨.OP_CALL_KWARGS, arg, blk⟩)
    (hA : Int.land arg 0xFFFF = ps.length)
    (hK : Int.land (Int.shiftRight arg 16) 0xFFFF = kws.length)
    (hstack : f.stack = rest ++ callee :: (ps ++ flat_kwargs kws)) :
    f.stack.length = rest.length + (2 * kws.length + ps.length + 1) ∧
    step ext vm f =
      match ext.call callee ps (flat_kwargs kws) true
          { f with pc := f.pc + 1, stack := rest } (ext._auto_collect f vm) with
      | .ok ret vm1 =>
        if ret = ._py_op_call then .return_ ret vm1 { f with pc := f.pc + 1, stack := rest }
        else .ok () vm1 { f with pc := f.pc + 1, stack := rest ++ [ret] }
      | .throw e vm1 => .raise e vm1 { f with pc := f.pc + 1, stack := rest } := by
  constructor
  · simp [hstack, flat_kwargs_length]; omega
  · rw [step_fetch ext vm f _ hfetch]
    have h1 : popx_n_reversed (Int.land (Int.shiftRight arg 16) 0xFFFF * 2)
        (ext._auto_collect f vm) { f with pc := f.pc + 1 }
        = .ok (flat_kwargs kws) (ext._auto_collect f vm)
            { f with pc := f.pc + 1, stack := rest ++ callee :: ps } :=
      popx_n_reversed_append _ _ _ (rest ++ callee :: ps) (flat_kwargs kws)
        (by rw [hK, flat_kwargs_length]; push_cast; ring) (by simp [hstack])
    have h2 : popx_n_reversed (Int.land arg 0xFFFF)
        (ext._auto_collect f vm) { f with pc := f.pc + 1, stack := rest ++ callee :: ps }
        = .ok ps (ext._auto_collect f vm)
            { f with pc := f.pc + 1, stack := rest ++ [callee] } :=
      popx_n_reversed_append _ _ _ (rest ++ [callee]) ps hA (by simp)
    have h3 : popx (ext._auto_collect f vm) { f with pc := f.pc + 1, stack := rest ++ [callee] }
        = .ok callee (ext._auto_collect f vm) { f with pc := f.pc + 1, stack := rest } :=
      popx_concat _ _ rest callee rfl
    simp only [dispatch, op_call_kwargs, Bind.bind, Exec.bind, h1, h2, h3, Pure.pure, service,
      reduceCtorEq, if_false]
    cases ext.call callee ps (flat_kwargs kws) true
        { f with pc := f.pc + 1, stack := rest } (ext._auto_collect f vm) with
    | throw e vm1 => rfl
    | ok ret vm1 =>
      by_cases hr : ret = ._py_op_call
      · simp [hr, return_, Exec.bind]
      · simp [hr, push, Exec.bind]

/-- C5 at a concrete frame: one positional argument and one keyword pair. -/
theorem C5_call_kwargs_bundles_witness :
    (sampleFrame callOneKeyword [.obj 9, .obj 5, .obj 1, .obj 2, .obj 3]).stack.length
      = [PyObjectPtr.obj 9].length + (2 * 1 + 1 + 1) ∧
    step sampleExt sampleVM
        (sampleFrame callOneKeyword [.obj 9, .obj 5, .obj 1, .obj 2, .obj 3])
      = .ok () sampleVM
          { sampleFrame callOneKeyword [.obj 9, .obj 5, .obj 1, .obj 2, .obj 3] with
            pc := 1, stack := [.obj 9, .obj 5] } :=
  C5_call_kwargs_bundles sampleExt sampleVM
    (sampleFrame callOneKeyword [.obj 9, .obj 5, .obj 1, .obj 2, .obj 3])
    65537 0 [.obj 9] (.obj 5) [.obj 1] [(.obj 2, .obj 3)] rfl (by decide) (by decide) rfl

theorem op_call_spec (ext : Ext) (vmc : VM) (f : Frame) (op : Opcode) (arg : Int) (blk : Nat)
    (rest : List PyObjectPtr) (callee : PyObjectPtr) (ps args : List PyObjectPtr) (vm0 : VM)
    (hstack : f.stack = rest ++ callee :: ps) (harg : arg = ps.length)
    (hargs : (op = .OP_CALL ∧ args = ps ∧ vm0 = vmc) ∨
      (op = .OP_CALL_UNPACK ∧
        ext.unpack_args ps { f with stack := rest ++ [callee] } vmc = .ok args vm0)) :
    op_call ext ⟨op, arg, blk⟩ vmc f
      = after_call ext callee args [] vm0 { f with stack := rest } := by
  have h2 : popx_n_reversed arg vmc f
      = .ok ps vmc { f with stack := rest ++ [callee] } :=
    popx_n_reversed_append _ _ _ (rest ++ [callee]) ps harg (by simp [hstack])
  have h3 : ∀ v : VM, popx v { f with stack := rest ++ [callee] }
      = .ok callee v { f with stack := rest } :=
    fun v => popx_concat _ _ rest callee rfl
  rcases hargs with ⟨hop, ha, hv⟩ | ⟨hop, hu⟩
  · subst hop ha hv
    simp only [op_call, Bind.bind, Exec.bind, h2, h3, Pure.pure, service, reduceCtorEq,
      if_false, after_call]
    cases ext.call callee args [] true { f with stack := rest } vm0 with
    | throw e vm1 => rfl
    | ok ret vm1 =>
      by_cases hr : ret = ._py_op_call
      · simp [hr, return_, Exec.bind]
      · simp [hr, push, Exec.bind]
  · subst hop
    simp only [op_call, Bind.bind, Exec.bind, h2, h3, Pure.pure, service, if_true, hu,
      after_call]
    cases ext.call callee args [] true { f with stack := rest } vm0 with
    | throw e vm1 => rfl
    | ok ret vm1 =>
      by_cases hr : ret = ._py_op_call
      · simp [hr, return_, Exec.bind]
      · simp [hr, push, Exec.bind]

theorem op_call_kwargs_spec (ext : Ext) (vmc : VM) (f : Frame) (op : Opcode) (arg : Int)
    (blk : Nat) (rest : List PyObjectPtr) (callee : PyObjectPtr)
    (ps kvs args : List PyObjectPtr) (vm0 : VM)
    (hstack : f.stack = rest ++ callee :: (ps ++ kvs))
    (hA : Int.land arg 0xFFFF = ps.length)
    (hK : Int.land (Int.shiftRight arg 16) 0xFFFF * 2 = kvs.length)
    (hargs : (op = .OP_CALL_KWARGS ∧ args = ps ∧ vm0 = vmc) ∨
      (op = .OP_CALL_KWARGS_UNPACK ∧
        ext.unpack_args ps { f with stack := rest ++ [callee] } vmc = .ok args vm0)) :
    op_call_kwargs ext ⟨op, arg, blk⟩ vmc f
      = after_call ext callee args kvs vm0 { f with stack := rest } := by
  have h1 : popx_n_reversed (Int.land (Int.shiftRight arg 16) 0xFFFF * 2) vmc f
      = .ok kvs vmc { f with stack := rest ++ callee :: ps } :=
    popx_n_reversed_append _ _ _ (rest ++ callee :: ps) kvs hK (by simp [hstack])
  have h2 : popx_n_reversed (Int.land arg 0xFFFF) vmc { f with stack := rest ++ callee :: ps }
      = .ok ps vmc { f with stack := rest ++ [callee] } :=
    popx_n_reversed_append _ _ _ (rest ++ [callee]) ps hA (by simp)
  have h3 : ∀ v : VM, popx v { f with stack := rest ++ [callee] }
      = .ok callee v { f with stack := rest } :=
    fun v => popx_concat _ _ rest callee rfl
  rcases hargs with ⟨hop, ha, hv⟩ | ⟨hop, hu⟩
  · subst hop ha hv
    simp only [op_call_kwargs, Bind.bind, Exec.bind, h1, h2, h3, Pure.pure, service,
      reduceCtorEq, if_false, after_call]
    cases ext.call callee args kvs true { f with stack := rest } vm0 with
    | throw e vm1 => rfl
    | ok ret vm1 =>
      by_cases hr : ret = ._py_op_call
      · simp [hr, return_, Exec.bind]
      · simp [hr, push, Exec.bind]
  · subst hop
    simp only [op_call_kwargs, Bind.bind, Exec.bind, h1, h2, h3, Pure.pure, service, if_true,
      hu, after_call]
    cases ext.call callee args kvs true { f with stack := rest } vm0 with
    | throw e vm1 => rfl
    | ok ret vm1 =>
      by_cases hr : ret = ._py_op_call
      · simp [hr, return_, Exec.bind]
      · simp [hr, push, Exec.bind]

/-- C6.  For each of the four call opcodes, on a stack `rest ++ callee :: ps ++ kvs` laid out
as the opcode expects (`kvs` empty without keyword arguments), with `args` the positional
bundle (`ps`, expanded by `unpack_args` for the unpack variants): if the call protocol yields
the trampoline sentinel, the iteration returns it, `run_frame` returns it at once for every
bound on the iterations, and the stack is `rest` (nothing pushed, arguments and callee
removed); if it yields another value `ret`, the stack is `rest ++ [ret]` and the loop goes on
with the next operation. -/
theorem C6_call_sentinel_or_push (ext : Ext) (vm : VM) (f : Frame) (op : Opcode) (arg : Int)
    (blk : Nat) (rest : List PyObjectPtr) (callee : PyObjectPtr)
    (ps kvs args : List PyObjectPtr) (vm0 vm1 : VM) (ret : PyObjectPtr)
    (hfetch : index? f.co.codes f.pc = some ⟨op, arg, blk⟩)
    (hstack : f.stack = rest ++ callee :: (ps ++ kvs))
    (hlayout :
      ((op = .OP_CALL ∨ op = .OP_CALL_UNPACK) ∧ kvs = [] ∧ arg = ps.length) ∨
      ((op = .OP_CALL_KWARGS ∨ op = .OP_CALL_KWARGS_UNPACK) ∧
        Int.land arg 0xFFFF = ps.length ∧
        Int.land (Int.shiftRight arg 16) 0xFFFF * 2 = kvs.length))
    (hargs :
      ((op = .OP_CALL ∨ op = .OP_CALL_KWARGS) ∧ args = ps ∧ vm0 = ext._auto_collect f vm) ∨
      ((op = .OP_CALL_UNPACK ∨ op = .OP_CALL_KWARGS_UNPACK) ∧
        ext.unpack_args ps { f with pc := f.pc + 1, stack := rest ++ [callee] }
          (ext._auto_collect f vm) = .ok args vm0))
    (hcall : ext.call callee args kvs true { f with pc := f.pc + 1, stack := rest } vm0
      = .ok ret vm1) :
    (ret = ._py_op_call →
      step ext vm f = .return_ ret vm1 { f with pc := f.pc + 1, stack := rest } ∧
      ∀ fuel, run_frame ext (fuel + 1) vm f
        = some (.returned ret vm1 { f with pc := f.pc + 1, stack := rest })) ∧
    (ret ≠ ._py_op_call →
      step ext vm f = .ok () vm1 { f with pc := f.pc + 1, stack := rest ++ [ret] } ∧
      ∀ fuel, run_frame ext (fuel + 1) vm f
        = run_frame ext fuel vm1 { f with pc := f.pc + 1, stack := rest ++ [ret] }) := by
  have hstep : step ext vm f
      = after_call ext callee args kvs vm0 { f with pc := f.pc + 1, stack := rest } := by
    rw [step_fetch ext vm f _ hfetch]
    rcases hlayout with ⟨hop, hk, ha⟩ | ⟨hop, hA, hK⟩
    · subst hk
      have hd : dispatch ext ⟨op, arg, blk⟩ = op_call ext ⟨op, arg, blk⟩ := by
        rcases hop with h | h <;> subst h <;> rfl
      rw [hd]
      refine op_call_spec ext _ { f with pc := f.pc + 1 } op arg blk rest callee ps args vm0
        (by simpa using hstack) ha ?_
      rcases hop with h | h
      · rcases hargs with ⟨_, h1, h2⟩ | ⟨h1, _⟩
        · exact Or.inl ⟨h, h1, h2⟩
        · subst h; rcases h1 with h1 | h1 <;> cases h1
      · rcases hargs with ⟨h1, _⟩ | ⟨_, h1⟩
        · subst h; rcases h1 with h1 | h1 <;> cases h1
        · exact Or.inr ⟨h, h1⟩
    · have hd : dispatch ext ⟨op, arg, blk⟩ = op_call_kwargs ext ⟨op, arg, blk⟩ := by
        rcases hop with h | h <;> subst h <;> rfl
      rw [hd]
      refine op_call_kwargs_spec ext _ { f with pc := f.pc + 1 } op arg blk rest callee ps kvs
        args vm0 hstack hA hK ?_
      rcases hop with h | h
      · rcases hargs with ⟨_, h1, h2⟩ | ⟨h1, _⟩
        · exact Or.inl ⟨h, h1, h2⟩
        · subst h; rcases h1 with h1 | h1 <;> cases h1
      · rcases hargs with ⟨h1, _⟩ | ⟨_, h1⟩
        · subst h; rcases h1 with h1 | h1 <;> cases h1
        · exact Or.inr ⟨h, h1⟩
  simp only [after_call, hcall] at hstep
  constructor
  · intro hr
    have hs : step ext vm f = .return_ ret vm1 { f with pc := f.pc + 1, stack := rest } := by
      rw [hstep]; simp [hr]
    exact ⟨hs, fun fuel => by rw [run_frame, hs]⟩
  · intro hr
    have hs : step ext vm f
        = .ok () vm1 { f with pc := f.pc + 1, stack := rest ++ [ret] } := by
      rw [hstep]; simp [hr]
    exact ⟨hs, fun fuel => by rw [run_frame, hs]⟩

/-- C6 at a concrete frame: the call yields the trampoline sentinel. -/
theorem C6_call_sentinel_or_push_witness :
    run_frame sampleExt 1 sampleVM
        (sampleFrame callThenPop [.obj 9, ._py_op_call, .obj 1])
      = some (.returned ._py_op_call sampleVM
          { sampleFrame callThenPop [.obj 9, ._py_op_call, .obj 1] with
            pc := 1, stack := [.obj 9] }) :=
  ((C6_call_sentinel_or_push sampleExt sampleVM
    (sampleFrame callThenPop [.obj 9, ._py_op_call, .obj 1])
    .OP_CALL 1 0 [.obj 9] ._py_op_call [.obj 1] [] [.obj 1] sampleVM sampleVM ._py_op_call
    rfl rfl (Or.inl ⟨Or.inl rfl, rfl, rfl⟩) (Or.inl ⟨Or.inl rfl, rfl, rfl⟩) rfl).1 rfl).2 0

/-! ## Operators (C7) -/

/-- C7.  For `OP_BINARY_OP`, `OP_COMPARE_OP` and `OP_BITWISE_OP` with argument `k` on the
stack `rest ++ [l, r]`: the protocol method at index `k` of the method table of the opcode is
called with the bundle `[l, r]`, the receiver being the left-hand operand `l`, and the
resulting stack is `rest ++ [result]`, one value shorter. -/
theorem C7_operator_receiver_is_left (ext : Ext) (vm : VM) (f : Frame) (op : Opcode)
    (k : Int) (blk : Nat) (rest : List PyObjectPtr) (l r : PyObjectPtr) (name : StrName)
    (hop : op = .OP_BINARY_OP ∨ op = .OP_COMPARE_OP ∨ op = .OP_BITWISE_OP)
    (hfetch : index? f.co.codes f.pc = some ⟨op, k, blk⟩)
    (hname : index? (method_table ext op) k = some name)
    (hstack : f.stack = rest ++ [l, r]) :
    step ext vm f =
      match ext.fast_call name [l, r] { f with pc := f.pc + 1, stack := rest ++ [l] }
          (ext._auto_collect f vm) with
      | .ok result vm1 => .ok () vm1 { f with pc := f.pc + 1, stack := rest ++ [result] }
      | .throw e vm1 => .raise e vm1 { f with pc := f.pc + 1, stack := rest ++ [l] } := by
  rw [step_fetch ext vm f _ hfetch]
  have h1 : popx (ext._auto_collect f vm) { f with pc := f.pc + 1 }
      = .ok r (ext._auto_collect f vm) { f with pc := f.pc + 1, stack := rest ++ [l] } :=
    popx_concat _ _ (rest ++ [l]) r (by simp [hstack])
  have h2 : ∀ v : VM, top v { f with pc := f.pc + 1, stack := rest ++ [l] }
      = .ok l v { f with pc := f.pc + 1, stack := rest ++ [l] } :=
    fun v => top_concat _ _ rest l rfl
  have h3 : ∀ (v : VM) (w : PyObjectPtr),
      set_top w v { f with pc := f.pc + 1, stack := rest ++ [l] }
        = .ok () v { f with pc := f.pc + 1, stack := rest ++ [w] } :=
    fun v w => set_top_concat _ _ rest l w rfl
  rcases hop with h | h | h <;> subst h <;>
    simp only [method_table] at hname <;>
    simp only [dispatch, Bind.bind, Exec.bind, h1, h2, hname, defined, Pure.pure, service] <;>
    cases ext.fast_call name [l, r] { f with pc := f.pc + 1, stack := rest ++ [l] }
      (ext._auto_collect f vm) <;>
    simp [h3]

/-- C7 at a concrete frame: the first binary method on `obj 1` and `obj 2`. -/
theorem C7_operator_receiver_is_left_witness :
    step sampleExt sampleVM (sampleFrame [⟨.OP_BINARY_OP, 0, 0⟩] [.obj 9, .obj 1, .obj 2])
      = .ok () sampleVM
          { sampleFrame [⟨.OP_BINARY_OP, 0, 0⟩] [.obj 9, .obj 1, .obj 2] with
            pc := 1, stack := [.obj 9, .obj 1] } :=
  C7_operator_receiver_is_left sampleExt sampleVM
    (sampleFrame [⟨.OP_BINARY_OP, 0, 0⟩] [.obj 9, .obj 1, .obj 2]) .OP_BINARY_OP 0 0 [.obj 9]
    (.obj 1) (.obj 2) ⟨"__add__"⟩ (Or.inl rfl) rfl rfl rfl

/-! ## Conditional jumps (C8) -/

/-- C8 as stated fails.  `OP_JUMP_IF_TRUE_OR_POP` on the stack `[obj 3, False]`: the tested
value is not true, the branch is not taken (the counter moves to the next operation, not to
the target 5), and the tested value has been popped: the stack is not the one before the
instruction. -/
theorem C8_branch_not_taken_pops :
    ∃ vm1 f1,
      step sampleExt sampleVM (sampleFrame [⟨.OP_JUMP_IF_TRUE_OR_POP, 5, 0⟩] [.obj 3, .False])
        = .ok () vm1 f1 ∧
      f1.pc = (sampleFrame [⟨.OP_JUMP_IF_TRUE_OR_POP, 5, 0⟩] [.obj 3, .False]).pc + 1 ∧
      f1.stack ≠ (sampleFrame [⟨.OP_JUMP_IF_TRUE_OR_POP, 5, 0⟩] [.obj 3, .False]).stack :=
  ⟨sampleVM, { sampleFrame [⟨.OP_JUMP_IF_TRUE_OR_POP, 5, 0⟩] [.obj 3, .False] with
      pc := 1, stack := [.obj 3] }, rfl, rfl, by decide⟩

/-- C8, amended.  On a stack `rest ++ [v]` whose top `v` has the truth value `b`:
`OP_JUMP_IF_TRUE_OR_POP` (resp. `OP_JUMP_IF_FALSE_OR_POP`) leaves the stack unchanged and
jumps when `b` is true (resp. false), the branch taken, and pops `v` and goes on with the next
operation when the branch is not taken; `OP_POP_JUMP_IF_FALSE` leaves the stack `rest`
whether or not it jumps. -/
theorem C8_short_circuit_jumps (ext : Ext) (vm : VM) (f : Frame) (arg : Int) (blk : Nat)
    (rest : List PyObjectPtr) (v : PyObjectPtr) (b : Bool) (vm1 : VM)
    (hstack : f.stack = rest ++ [v]) :
    (index? f.co.codes f.pc = some ⟨.OP_JUMP_IF_TRUE_OR_POP, arg, blk⟩ →
      ext.asBool v { f with pc := f.pc + 1 } (ext._auto_collect f vm) = .ok b vm1 →
      step ext vm f = .ok () vm1
        (if b = true then { f with pc := arg } else { f with pc := f.pc + 1, stack := rest })) ∧
    (index? f.co.codes f.pc = some ⟨.OP_JUMP_IF_FALSE_OR_POP, arg, blk⟩ →
      ext.asBool v { f with pc := f.pc + 1 } (ext._auto_collect f vm) = .ok b vm1 →
      step ext vm f = .ok () vm1
        (if b = false then { f with pc := arg } else { f with pc := f.pc + 1, stack := rest })) ∧
    (index? f.co.codes f.pc = some ⟨.OP_POP_JUMP_IF_FALSE, arg, blk⟩ →
      ext.asBool v { f with pc := f.pc + 1, stack := rest } (ext._auto_collect f vm)
        = .ok b vm1 →
      step ext vm f = .ok () vm1
        { f with pc := if b = false then arg else f.pc + 1, stack := rest }) := by
  have ht : ∀ w : VM, top w { f with pc := f.pc + 1 } = .ok v w { f with pc := f.pc + 1 } :=
    fun w => top_concat _ _ rest v (by simp [hstack])
  have hp : ∀ w : VM, popx w { f with pc := f.pc + 1 }
      = .ok v w { f with pc := f.pc + 1, stack := rest } :=
    fun w => popx_concat _ _ rest v (by simp [hstack])
  refine ⟨?_, ?_, ?_⟩
  · intro hfetch hb
    rw [step_fetch ext vm f _ hfetch]
    cases b <;>
      simp [dispatch, Bind.bind, Exec.bind, ht, hp, service, hb, jump_abs, pop, Pure.pure]
  · intro hfetch hb
    rw [step_fetch ext vm f _ hfetch]
    cases b <;>
      simp [dispatch, Bind.bind, Exec.bind, ht, hp, service, hb, jump_abs, pop, Pure.pure]
  · intro hfetch hb
    rw [step_fetch ext vm f _ hfetch]
    cases b <;>
      simp [dispatch, Bind.bind, Exec.bind, ht, hp, service, hb, jump_abs, pop, Pure.pure]

/-- C8, amended, at a concrete frame: the branch is taken and `True` stays on the stack. -/
theorem C8_short_circuit_jumps_witness :
    step sampleExt sampleVM (sampleFrame [⟨.OP_JUMP_IF_TRUE_OR_POP, 5, 0⟩] [.obj 3, .True])
      = .ok () sampleVM
          { sampleFrame [⟨.OP_JUMP_IF_TRUE_OR_POP, 5, 0⟩] [.obj 3, .True] with pc := 5 } :=
  (C8_short_circuit_jumps sampleExt sampleVM
    (sampleFrame [⟨.OP_JUMP_IF_TRUE_OR_POP, 5, 0⟩] [.obj 3, .True]) 5 0 [.obj 3] .True true
    sampleVM rfl).1 rfl rfl

/-! ## Iteration (C9) -/

/-- C9.  Let `fAt i`, `vmAt i` be the frame and the VM state at the `i`-th execution of
`OP_FOR_ITER` (counted from 0), each with the iterator `it` on top of the stack, and let the
iterator produce the values `vs`, none of them null, at the first `vs.length` executions and
be exhausted at the next one.  Then the `i`-th execution pushes exactly `vs[i]` on top of the
iterator and goes on with the next operation, and the execution after the last value pushes
nothing and performs the block-exit jump to the end offset of the block of the instruction,
without an error. -/
theorem C9_for_iter_sequence (ext : Ext) (it : PyObjectPtr) (vs : List PyObjectPtr)
    (vmAt : Nat → VM) (fAt : Nat → Frame) (vmAfter : Nat → VM)
    (arg : Nat → Int) (blk : Nat → Nat) (b : CodeBlock)
    (hfetch : ∀ i, i ≤ vs.length →
      index? (fAt i).co.codes (fAt i).pc = some ⟨.OP_FOR_ITER, arg i, blk i⟩)
    (htop : ∀ i, i ≤ vs.length → (fAt i).stack.getLast? = some it)
    (hnn : ∀ v ∈ vs, v ≠ .nullptr)
    (hprod : ∀ i (h : i < vs.length),
      ext.next it { fAt i with pc := (fAt i).pc + 1 } (ext._auto_collect (fAt i) (vmAt i))
        = .ok vs[i] (vmAfter i))
    (hexh : ext.next it { fAt vs.length with pc := (fAt vs.length).pc + 1 }
        (ext._auto_collect (fAt vs.length) (vmAt vs.length))
        = .ok .nullptr (vmAfter vs.length))
    (hblk : (fAt vs.length).co.blocks[blk vs.length]? = some b) :
    (∀ i (h : i < vs.length),
      step ext (vmAt i) (fAt i)
        = .ok () (vmAfter i)
            { fAt i with pc := (fAt i).pc + 1, stack := (fAt i).stack ++ [vs[i]] }) ∧
    step ext (vmAt vs.length) (fAt vs.length)
      = .ok () (vmAfter vs.length)
          { ext.exit_blocks { fAt vs.length with pc := (fAt vs.length).pc + 1 } b.end_ with
            pc := b.end_ } := by
  have ht : ∀ i, i ≤ vs.length → ∀ w : VM,
      top w { fAt i with pc := (fAt i).pc + 1 } = .ok it w { fAt i with pc := (fAt i).pc + 1 } := by
    intro i hi w
    simp [top, htop i hi]
  constructor
  · intro i h
    rw [step_fetch ext _ _ _ (hfetch i (Nat.le_of_lt h))]
    have hv : vs[i] ≠ .nullptr := hnn _ (List.getElem_mem _)
    simp [dispatch, Bind.bind, Exec.bind, ht i (Nat.le_of_lt h), service, hprod i h, hv, push]
  · rw [step_fetch ext _ _ _ (hfetch vs.length (Nat.le_refl _))]
    simp [dispatch, Bind.bind, Exec.bind, ht vs.length (Nat.le_refl _), service, hexh,
      getFrame, hblk, defined, Pure.pure, jump_abs_break]

/-- C9 at a concrete iterator: it produces `obj 100`, `obj 101` and is then exhausted. -/
theorem C9_for_iter_sequence_witness :
    step sampleExt { sampleVM with next_addr := 2 }
        (sampleFrame [⟨.OP_FOR_ITER, 0, 0⟩] [.obj 9])
      = .ok () { sampleVM with next_addr := 2 }
          { sampleFrame [⟨.OP_FOR_ITER, 0, 0⟩] [.obj 9] with pc := 5 } :=
  (C9_for_iter_sequence sampleExt (.obj 9) [.obj 100, .obj 101]
    (fun i => { sampleVM with next_addr := i })
    (fun _ => sampleFrame [⟨.OP_FOR_ITER, 0, 0⟩] [.obj 9])
    (fun i => { sampleVM with next_addr := min (i + 1) 2 })
    (fun _ => 0) (fun _ => 0) ⟨0, 5⟩
    (fun _ _ => rfl) (fun _ _ => rfl) (by decide)
    (fun i h => match i, h with
      | 0, _ => rfl
      | 1, _ => rfl)
    rfl rfl).2

/-! ## Goto (C10) -/

/-- C10.  `OP_GOTO` raises an error if and only if the label named by the instruction is
absent from the label table of the code object, and the error is then a `KeyError` whose
message contains the quoted label name; when the label is defined, with the offset `target`,
there is no error: the case hands the frame, its operand stack untouched, to the block-exit
jump, and the loop resumes at exactly `target`. -/
theorem C10_goto_label (ext : Ext) (vm : VM) (f : Frame) (arg : Int) (blk : Nat)
    (label : StrName)
    (hfetch : index? f.co.codes f.pc = some ⟨.OP_GOTO, arg, blk⟩)
    (hname : index? f.co.names arg = some label) :
    (f.co.labels.lookup label = none ↔
      ∃ msg vm1 f1, step ext vm f = .raise (.error "KeyError" msg) vm1 f1 ∧
        (ext.escape label.str).data <:+: msg.data) ∧
    (f.co.labels.lookup label = none ↔ ∃ e vm1 f1, step ext vm f = .raise e vm1 f1) ∧
    (∀ target, f.co.labels.lookup label = some target →
      step ext vm f = .ok () (ext._auto_collect f vm)
        { ext.exit_blocks { f with pc := f.pc + 1 } target with pc := target }) := by
  have hnone : f.co.labels.lookup label = none →
      step ext vm f = .raise
        (.error "KeyError" ("label " ++ ext.escape label.str ++ " not found"))
        (ext._auto_collect f vm) { f with pc := f.pc + 1 } := by
    intro h
    rw [step_fetch ext vm f _ hfetch]
    simp [dispatch, co_names, getFrame, defined, hname, Bind.bind, Exec.bind, Pure.pure, h,
      throw_]
  have hsome : ∀ target, f.co.labels.lookup label = some target →
      step ext vm f = .ok () (ext._auto_collect f vm)
        { ext.exit_blocks { f with pc := f.pc + 1 } target with pc := target } := by
    intro target h
    rw [step_fetch ext vm f _ hfetch]
    simp [dispatch, co_names, getFrame, defined, hname, Bind.bind, Exec.bind, Pure.pure, h,
      jump_abs_break]
  refine ⟨⟨?_, ?_⟩, ⟨?_, ?_⟩, hsome⟩
  · intro h
    refine ⟨_, _, _, hnone h, ?_⟩
    refine ⟨"label ".data, " not found".data, ?_⟩
    simp [String.data_append]
  · rintro ⟨msg, vm1, f1, h, _⟩
    cases hl : f.co.labels.lookup label with
    | none => rfl
    | some target => rw [hsome target hl] at h; cases h
  · intro h
    exact ⟨_, _, _, hnone h⟩
  · rintro ⟨e, vm1, f1, h⟩
    cases hl : f.co.labels.lookup label with
    | none => rfl
    | some target => rw [hsome target hl] at h; cases h

/-- C10 at a concrete frame: the label `x` is defined at offset 3. -/
theorem C10_goto_label_witness :
    step sampleExt sampleVM (sampleFrame [⟨.OP_GOTO, 0, 0⟩] [.obj 4])
      = .ok () sampleVM { sampleFrame [⟨.OP_GOTO, 0, 0⟩] [.obj 4] with pc := 3 } :=
  (C10_goto_label sampleExt sampleVM (sampleFrame [⟨.OP_GOTO, 0, 0⟩] [.obj 4]) 0 0 ⟨"x"⟩
    rfl rfl).2.2 3 rfl

/-! ## Aggregate builders (C11, C12) -/

/-- C11.  For every `N` and every stack `rest ++ [x1, ..., xN]`, `OP_BUILD_LIST N` (resp.
`OP_BUILD_TUPLE N`) leaves the stack `rest ++ [agg]`, where `agg` is the list (resp. tuple)
object made from the `N` elements `x1, ..., xN` in that original order; `rest` is
unchanged. -/
theorem C11_build_list_tuple (ext : Ext) (vm : VM) (f : Frame) (N : Int) (blk : Nat)
    (rest xs : List PyObjectPtr)
    (hN : N = xs.length)
    (hstack : f.stack = rest ++ xs) :
    (index? f.co.codes f.pc = some ⟨.OP_BUILD_LIST, N, blk⟩ →
      step ext vm f = push_made
        (ext.VAR_List xs { f with pc := f.pc + 1, stack := rest } (ext._auto_collect f vm))
        { f with pc := f.pc + 1, stack := rest }) ∧
    (index? f.co.codes f.pc = some ⟨.OP_BUILD_TUPLE, N, blk⟩ →
      step ext vm f = push_made
        (ext.VAR_Tuple xs { f with pc := f.pc + 1, stack := rest } (ext._auto_collect f vm))
        { f with pc := f.pc + 1, stack := rest }) := by
  have hp : ∀ w : VM, popx_n_reversed N w { f with pc := f.pc + 1 }
      = .ok xs w { f with pc := f.pc + 1, stack := rest } :=
    fun w => popx_n_reversed_append _ _ _ rest xs hN (by simp [hstack])
  constructor
  · intro hfetch
    rw [step_fetch ext vm f _ hfetch]
    simp only [dispatch, Bind.bind, Exec.bind, hp, service, push_made]
    cases ext.VAR_List xs { f with pc := f.pc + 1, stack := rest } (ext._auto_collect f vm) <;>
      simp [push]
  · intro hfetch
    rw [step_fetch ext vm f _ hfetch]
    simp only [dispatch, Bind.bind, Exec.bind, hp, service, push_made]
    cases ext.VAR_Tuple xs { f with pc := f.pc + 1, stack := rest } (ext._auto_collect f vm) <;>
      simp [push]

/-- C11 at a concrete frame: a list of the two elements `obj 1`, `obj 2`. -/
theorem C11_build_list_tuple_witness :
    step sampleExt sampleVM (sampleFrame [⟨.OP_BUILD_LIST, 2, 0⟩] [.obj 9, .obj 1, .obj 2])
      = .ok () sampleVM
          { sampleFrame [⟨.OP_BUILD_LIST, 2, 0⟩] [.obj 9, .obj 1, .obj 2] with
            pc := 1, stack := [.obj 9, .obj 0] } :=
  (C11_build_list_tuple sampleExt sampleVM
    (sampleFrame [⟨.OP_BUILD_LIST, 2, 0⟩] [.obj 9, .obj 1, .obj 2]) 2 0 [.obj 9]
    [.obj 1, .obj 2] rfl rfl).1 rfl

/-- C12.  For every stack `rest ++ [start, stop, step]` where each of the three operands is
`None` or an integer, `OP_BUILD_SLICE` replaces the three operands by the slice object made
from the slice whose components are the integers of the operands that are not `None`, the
component of an operand that is `None` being left unset. -/
theorem C12_build_slice (ext : Ext) (vm : VM) (f : Frame) (arg : Int) (blk : Nat)
    (rest : List PyObjectPtr) (start stop step_ : PyObjectPtr) (cs ct cp : Option Int)
    (hfetch : index? f.co.codes f.pc = some ⟨.OP_BUILD_SLICE, arg, blk⟩)
    (hstack : f.stack = rest ++ [start, stop, step_])
    (hs : slice_operand ext start cs) (ht : slice_operand ext stop ct)
    (hp : slice_operand ext step_ cp) :
    step ext vm f = push_made
      (ext.VAR_Slice { start := cs, stop := ct, step := cp }
        { f with pc := f.pc + 1, stack := rest } (ext._auto_collect f vm))
      { f with pc := f.pc + 1, stack := rest } := by
  rw [step_fetch ext vm f _ hfetch]
  have h1 : ∀ w : VM, popx w { f with pc := f.pc + 1 }
      = .ok step_ w { f with pc := f.pc + 1, stack := rest ++ [start, stop] } :=
    fun w => popx_concat _ _ (rest ++ [start, stop]) step_ (by simp [hstack])
  have h2 : ∀ w : VM, popx w { f with pc := f.pc + 1, stack := rest ++ [start, stop] }
      = .ok stop w { f with pc := f.pc + 1, stack := rest ++ [start] } :=
    fun w => popx_concat _ _ (rest ++ [start]) stop (by simp)
  have h3 : ∀ w : VM, popx w { f with pc := f.pc + 1, stack := rest ++ [start] }
      = .ok start w { f with pc := f.pc + 1, stack := rest } :=
    fun w => popx_concat _ _ rest start rfl
  simp only [dispatch, Bind.bind, Exec.bind, h1, h2, h3, push_made]
  rcases hs with ⟨hs1, hs2⟩ | ⟨hs1, i, hs2, hs3⟩ <;>
  rcases ht with ⟨ht1, ht2⟩ | ⟨ht1, j, ht2, ht3⟩ <;>
  rcases hp with ⟨hp1, hp2⟩ | ⟨hp1, k, hp2, hp3⟩ <;>
  subst_vars <;>
  simp only [ne_eq, not_true_eq_false, not_false_eq_true, if_true, if_false, Pure.pure,
    service, Exec.bind, *] <;>
  cases ext.VAR_Slice _ { f with pc := f.pc + 1, stack := rest } (ext._auto_collect f vm) <;>
  simp [push]

/-- C12 at a concrete frame: the operands `1`, `None`, `2`. -/
theorem C12_build_slice_witness :
    step intExt sampleVM (sampleFrame [⟨.OP_BUILD_SLICE, 0, 0⟩] [.obj 9, .obj 1, .None, .obj 2])
      = push_made
          (intExt.VAR_Slice { start := some 1, stop := none, step := some 2 }
            { sampleFrame [⟨.OP_BUILD_SLICE, 0, 0⟩] [.obj 9, .obj 1, .None, .obj 2] with
              pc := 1, stack := [.obj 9] } sampleVM)
          { sampleFrame [⟨.OP_BUILD_SLICE, 0, 0⟩] [.obj 9, .obj 1, .None, .obj 2] with
            pc := 1, stack := [.obj 9] } :=
  C12_build_slice intExt sampleVM
    (sampleFrame [⟨.OP_BUILD_SLICE, 0, 0⟩] [.obj 9, .obj 1, .None, .obj 2]) 0 0 [.obj 9]
    (.obj 1) .None (.obj 2) (some 1) none (some 2) rfl rfl
    (Or.inr ⟨by decide, 1, rfl, fun _ _ => rfl⟩) (Or.inl ⟨rfl, rfl⟩)
    (Or.inr ⟨by decide, 2, rfl, fun _ _ => rfl⟩)

/-! ## Membership test (C13) -/

/-- C13 as stated fails.  On the stack `[obj 9, True, False]` (needle `True`, haystack
`False`) the outcome of `OP_CONTAINS_OP` is not the one of a dispatch with the bundle in
(needle, haystack) order: with collaborators whose protocol methods yield their receiver,
that dispatch would leave `True` on the stack and the instruction leaves `False`. -/
theorem C13_bundle_is_not_needle_first :
    step sampleExt sampleVM containsFrame
      ≠ contains_outcome sampleExt [.True, .False] 0 sampleVM
          { containsFrame with pc := 1, stack := [.obj 9, .True] } [.obj 9] := by
  decide

/-- C13, amended.  For `OP_CONTAINS_OP` on a stack `rest ++ [needle, haystack]`: the method
`__contains__` is dispatched with the bundle in (haystack, needle) order, the first element,
the receiver, being the haystack popped from the top and the second the needle; the
resulting stack is `rest ++ [b]` where `b` is the boolean result of that call, negated
exactly when the argument of the opcode is 1. -/
theorem C13_contains_receiver_is_haystack (ext : Ext) (vm : VM) (f : Frame) (arg : Int)
    (blk : Nat) (rest : List PyObjectPtr) (needle haystack : PyObjectPtr)
    (hfetch : index? f.co.codes f.pc = some ⟨.OP_CONTAINS_OP, arg, blk⟩)
    (hstack : f.stack = rest ++ [needle, haystack]) :
    step ext vm f
      = contains_outcome ext [haystack, needle] arg (ext._auto_collect f vm)
          { f with pc := f.pc + 1, stack := rest ++ [needle] } rest := by
  rw [step_fetch ext vm f _ hfetch]
  have h1 : ∀ w : VM, popx w { f with pc := f.pc + 1 }
      = .ok haystack w { f with pc := f.pc + 1, stack := rest ++ [needle] } :=
    fun w => popx_concat _ _ (rest ++ [needle]) haystack (by simp [hstack])
  have h2 : ∀ w : VM, top w { f with pc := f.pc + 1, stack := rest ++ [needle] }
      = .ok needle w { f with pc := f.pc + 1, stack := rest ++ [needle] } :=
    fun w => top_concat _ _ rest needle rfl
  have h3 : ∀ (w : VM) (v : PyObjectPtr),
      set_top v w { f with pc := f.pc + 1, stack := rest ++ [needle] }
        = .ok () w { f with pc := f.pc + 1, stack := rest ++ [v] } :=
    fun w v => set_top_concat _ _ rest needle v rfl
  simp only [dispatch, Bind.bind, Exec.bind, h1, h2, service, contains_outcome]
  cases ext.fast_call __contains__ [haystack, needle]
      { f with pc := f.pc + 1, stack := rest ++ [needle] } (ext._auto_collect f vm) with
  | throw e vm1 => rfl
  | ok ret vm1 =>
    dsimp only
    cases ext.CAST_bool ret { f with pc := f.pc + 1, stack := rest ++ [needle] } vm1 with
    | throw e vm2 => rfl
    | ok b vm2 => simp [h3]

/-- C13, amended, at a concrete frame: the receiver is the haystack `False`. -/
theorem C13_contains_receiver_is_haystack_witness :
    step sampleExt sampleVM containsFrame
      = .ok () sampleVM { containsFrame with pc := 1, stack := [.obj 9, .False] } :=
  C13_contains_receiver_is_haystack sampleExt sampleVM containsFrame 0 0 [.obj 9] .True .False
    rfl rfl

/-! ## Deletion of names and attributes (C14, C15) -/

theorem erase_lookup_self (d : NameDict) (name : StrName) :
    (d.erase name).lookup name = none := by
  induction d with
  | nil => rfl
  | cons kv d ih =>
    obtain ⟨k, v⟩ := kv
    by_cases hk : k = name
    · simp only [NameDict.erase] at ih ⊢
      simpa [List.filter_cons, hk] using ih
    · simp only [NameDict.erase] at ih ⊢
      have hne : (name == k) = false := by simpa using fun h => hk h.symm
      simpa [List.filter_cons, hk, List.lookup_cons, hne] using ih

theorem erase_lookup_other (d : NameDict) (name n : StrName) (h : n ≠ name) :
    (d.erase name).lookup n = d.lookup n := by
  induction d with
  | nil => rfl
  | cons kv d ih =>
    obtain ⟨k, v⟩ := kv
    simp only [NameDict.erase] at ih ⊢
    by_cases hk : k = name
    · subst hk
      have hne : (n == k) = false := by simpa using h
      simpa [List.filter_cons, List.lookup_cons, hne] using ih
    · by_cases hnk : n = k
      · simp [List.filter_cons, hk, List.lookup_cons, hnk]
      · have hne : (n == k) = false := by simpa using hnk
        simpa [List.filter_cons, hk, List.lookup_cons, hne] using ih

theorem getElem?_set_other {α : Type} (l : List α) (i j : Nat) (a : α) (h : i ≠ j) :
    (l.set i a)[j]? = l[j]? := by
  simp [List.getElem?_set, h]

theorem getElem?_set_same {α : Type} (l : List α) (i : Nat) (a b : α) (h : l[i]? = some b) :
    (l.set i a)[i]? = some a := by
  have hi : i < l.length := by
    by_contra hc
    rw [List.getElem?_eq_none (Nat.le_of_not_lt hc)] at h
    cases h
  simp [List.getElem?_set, hi]

/-- C14.  On a frame whose locals `dl` and globals `dg` are distinct tables of the scope
chain: `OP_DELETE_LOCAL` (resp. `OP_DELETE_GLOBAL`) raises an error if and only if the name is
absent from the locals (resp. globals), the error is then the name error naming the
identifier and the frame, its tables and operand stack included, is unchanged; on success
the table becomes `erase name` of itself, which binds every other name as before and no
longer binds the name, and the operand stack and the other table are unchanged. -/
theorem C14_delete_local_global (ext : Ext) (vm : VM) (f : Frame) (arg : Int) (blk : Nat)
    (name : StrName) (dl dg : NameDict)
    (hname : index? f.co.names arg = some name)
    (hl : f.names[0]? = some (some dl))
    (hg : f.names[f.globals_at]? = some (some dg))
    (hdist : f.globals_at ≠ 0) :
    (index? f.co.codes f.pc = some ⟨.OP_DELETE_LOCAL, arg, blk⟩ →
      ((∃ e vm1 f1, step ext vm f = .raise e vm1 f1) ↔ dl.contains name = false) ∧
      (dl.contains name = false →
        step ext vm f
          = .raise (.NameError name) (ext._auto_collect f vm) { f with pc := f.pc + 1 }) ∧
      (dl.contains name = true →
        step ext vm f = .ok () (ext._auto_collect f vm)
          { f with pc := f.pc + 1, names := f.names.set 0 (some (dl.erase name)) } ∧
        (f.names.set 0 (some (dl.erase name)))[0]? = some (some (dl.erase name)) ∧
        (f.names.set 0 (some (dl.erase name)))[f.globals_at]? = some (some dg))) ∧
    (index? f.co.codes f.pc = some ⟨.OP_DELETE_GLOBAL, arg, blk⟩ →
      ((∃ e vm1 f1, step ext vm f = .raise e vm1 f1) ↔ dg.contains name = false) ∧
      (dg.contains name = false →
        step ext vm f
          = .raise (.NameError name) (ext._auto_collect f vm) { f with pc := f.pc + 1 }) ∧
      (dg.contains name = true →
        step ext vm f = .ok () (ext._auto_collect f vm)
          { f with pc := f.pc + 1,
                   names := f.names.set f.globals_at (some (dg.erase name)) } ∧
        (f.names.set f.globals_at (some (dg.erase name)))[f.globals_at]?
          = some (some (dg.erase name)) ∧
        (f.names.set f.globals_at (some (dg.erase name)))[0]? = some (some dl))) ∧
    (∀ d : NameDict, (d.erase name).lookup name = none ∧
      ∀ n, n ≠ name → (d.erase name).lookup n = d.lookup n) := by
  refine ⟨?_, ?_, fun d => ⟨erase_lookup_self d name, erase_lookup_other d name⟩⟩
  · intro hfetch
    have hno : dl.contains name = false →
        step ext vm f
          = .raise (.NameError name) (ext._auto_collect f vm) { f with pc := f.pc + 1 } := by
      intro hc
      rw [step_fetch ext vm f _ hfetch]
      simp [dispatch, co_names, getFrame, defined, hname, Bind.bind, Exec.bind, Pure.pure,
        f_locals, hl, hc, throw_]
    have hyes : dl.contains name = true →
        step ext vm f = .ok () (ext._auto_collect f vm)
          { f with pc := f.pc + 1, names := f.names.set 0 (some (dl.erase name)) } := by
      intro hc
      rw [step_fetch ext vm f _ hfetch]
      simp [dispatch, co_names, getFrame, defined, hname, Bind.bind, Exec.bind, Pure.pure,
        f_locals, set_f_locals, setFrame, hl, hc]
    refine ⟨⟨?_, fun hc => ⟨_, _, _, hno hc⟩⟩, hno, fun hc => ⟨hyes hc, ?_, ?_⟩⟩
    · rintro ⟨e, vm1, f1, h⟩
      cases hc : dl.contains name with
      | false => rfl
      | true => rw [hyes hc] at h; cases h
    · exact getElem?_set_same _ _ _ _ hl
    · rw [getElem?_set_other _ _ _ _ (Ne.symm hdist)]; exact hg
  · intro hfetch
    have hno : dg.contains name = false →
        step ext vm f
          = .raise (.NameError name) (ext._auto_collect f vm) { f with pc := f.pc + 1 } := by
      intro hc
      rw [step_fetch ext vm f _ hfetch]
      simp [dispatch, co_names, getFrame, defined, hname, Bind.bind, Exec.bind, Pure.pure,
        f_globals, hg, hc, throw_]
    have hyes : dg.contains name = true →
        step ext vm f = .ok () (ext._auto_collect f vm)
          { f with pc := f.pc + 1,
                   names := f.names.set f.globals_at (some (dg.erase name)) } := by
      intro hc
      rw [step_fetch ext vm f _ hfetch]
      simp [dispatch, co_names, getFrame, defined, hname, Bind.bind, Exec.bind, Pure.pure,
        f_globals, set_f_globals, setFrame, hg, hc]
    refine ⟨⟨?_, fun hc => ⟨_, _, _, hno hc⟩⟩, hno, fun hc => ⟨hyes hc, ?_, ?_⟩⟩
    · rintro ⟨e, vm1, f1, h⟩
      cases hc : dg.contains name with
      | false => rfl
      | true => rw [hyes hc] at h; cases h
    · exact getElem?_set_same _ _ _ _ hg
    · rw [getElem?_set_other _ _ _ _ hdist]; exact hl

/-- C14 at a concrete frame: the local `x` is deleted, the global `x` stays. -/
theorem C14_delete_local_global_witness :
    step sampleExt sampleVM (sampleFrame [⟨.OP_DELETE_LOCAL, 0, 0⟩] [.obj 4])
      = .ok () sampleVM
          { sampleFrame [⟨.OP_DELETE_LOCAL, 0, 0⟩] [.obj 4] with
            pc := 1, names := [some [], some [(⟨"x"⟩, .obj 2)], none] } :=
  (((C14_delete_local_global sampleExt sampleVM
    (sampleFrame [⟨.OP_DELETE_LOCAL, 0, 0⟩] [.obj 4]) 0 0 ⟨"x"⟩ [(⟨"x"⟩, .obj 1)]
    [(⟨"x"⟩, .obj 2)] rfl rfl rfl (by decide)).1 rfl).2.2 rfl).1

theorem lookup_map_replace (attrs : List (PyObjectPtr × NameDict)) (a : PyObjectPtr)
    (d : NameDict) (b : PyObjectPtr) :
    (attrs.map (fun e => if e.1 = a then (a, d) else e)).lookup b
      = if b = a then (attrs.lookup a).map (fun _ => d) else attrs.lookup b := by
  induction attrs with
  | nil => simp
  | cons e attrs ih =>
    obtain ⟨k, v⟩ := e
    by_cases hk : k = a
    · subst hk
      by_cases hb : b = k
      · subst hb
        simp [List.lookup_cons]
      · have hne : (b == k) = false := by simpa using hb
        simp only [List.map_cons, if_true, List.lookup_cons, hne, ih, hb, if_false]
    · by_cases hb : b = k
      · subst hb
        simp [List.lookup_cons, hk]
      · have hne : (b == k) = false := by simpa using hb
        by_cases hba : b = a
        · subst hba
          have hne2 : (b == k) = false := by simpa using hb
          simp only [List.map_cons, hk, if_false, List.lookup_cons, hne2, ih, if_true]
        · simp only [List.map_cons, hk, if_false, List.lookup_cons, hne, ih, hba]

/-- C15.  `OP_DELETE_ATTR` on the value `a` on top of the stack: if `a` has no attribute
table the instruction raises the type error, whatever the name; otherwise, if the table lacks
the name, it raises the attribute error; in both cases the VM state, the attribute tables
included, is unchanged.  Otherwise it succeeds, and the table of `a` becomes `erase name` of
itself, which binds every other name as before and no longer binds the name, the tables of
the other objects being unchanged. -/
theorem C15_delete_attr (ext : Ext) (vm : VM) (f : Frame) (arg : Int) (blk : Nat)
    (rest : List PyObjectPtr) (a : PyObjectPtr) (name : StrName)
    (hfetch : index? f.co.codes f.pc = some ⟨.OP_DELETE_ATTR, arg, blk⟩)
    (hname : index? f.co.names arg = some name)
    (hstack : f.stack = rest ++ [a]) :
    (attr? (ext._auto_collect f vm) a = none →
      step ext vm f = .raise (.TypeError "cannot delete attribute") (ext._auto_collect f vm)
        { f with pc := f.pc + 1, stack := rest }) ∧
    (∀ d, attr? (ext._auto_collect f vm) a = some d → d.contains name = false →
      step ext vm f = .raise (.AttributeError a name) (ext._auto_collect f vm)
        { f with pc := f.pc + 1, stack := rest }) ∧
    (∀ d, attr? (ext._auto_collect f vm) a = some d → d.contains name = true →
      ∃ vm1, step ext vm f = .ok () vm1 { f with pc := f.pc + 1, stack := rest } ∧
        attr? vm1 a = some (d.erase name) ∧
        (∀ b, b ≠ a → attr? vm1 b = attr? (ext._auto_collect f vm) b) ∧
        (d.erase name).lookup name = none ∧
        ∀ n, n ≠ name → (d.erase name).lookup n = d.lookup n) := by
  have hp : ∀ w : VM, popx w { f with pc := f.pc + 1 }
      = .ok a w { f with pc := f.pc + 1, stack := rest } :=
    fun w => popx_concat _ _ rest a (by simp [hstack])
  refine ⟨?_, ?_, ?_⟩
  · intro hnone
    rw [step_fetch ext vm f _ hfetch]
    simp [dispatch, Bind.bind, Exec.bind, hp, co_names, getFrame, defined, hname, Pure.pure,
      getVM, hnone, throw_]
  · intro d hd hc
    rw [step_fetch ext vm f _ hfetch]
    simp [dispatch, Bind.bind, Exec.bind, hp, co_names, getFrame, defined, hname, Pure.pure,
      getVM, hd, hc, throw_]
  · intro d hd hc
    refine ⟨{ ext._auto_collect f vm with
      attrs := (ext._auto_collect f vm).attrs.map
        (fun e => if e.1 = a then (a, d.erase name) else e) }, ?_, ?_, ?_,
      erase_lookup_self d name, erase_lookup_other d name⟩
    · rw [step_fetch ext vm f _ hfetch]
      simp [dispatch, Bind.bind, Exec.bind, hp, co_names, getFrame, defined, hname, Pure.pure,
        getVM, hd, hc, set_attr, setVM]
    · simp only [attr?] at hd ⊢
      rw [lookup_map_replace, if_pos rfl, hd]
      rfl
    · intro b hb
      simp only [attr?]
      rw [lookup_map_replace, if_neg hb]

/-- C15 at a concrete object: the attribute `x` of `obj 5` is deleted, `y` stays. -/
theorem C15_delete_attr_witness :
    ∃ vm1, step sampleExt attrVM (sampleFrame [⟨.OP_DELETE_ATTR, 0, 0⟩] [.obj 9, .obj 5])
        = .ok () vm1
            { sampleFrame [⟨.OP_DELETE_ATTR, 0, 0⟩] [.obj 9, .obj 5] with
              pc := 1, stack := [.obj 9] } ∧
      attr? vm1 (.obj 5) = some [(⟨"y"⟩, .obj 2)] := by
  obtain ⟨vm1, h1, h2, _⟩ := (C15_delete_attr sampleExt attrVM
    (sampleFrame [⟨.OP_DELETE_ATTR, 0, 0⟩] [.obj 9, .obj 5]) 0 0 [.obj 9] (.obj 5) ⟨"x"⟩
    rfl rfl rfl).2.2 [(⟨"x"⟩, .obj 1), (⟨"y"⟩, .obj 2)] rfl rfl
  exact ⟨vm1, h1, h2⟩

/-! ## Lemmas on the name tables -/

theorem set_lookup_self (d : NameDict) (n : StrName) (v : PyObjectPtr) :
    (d.set n v).lookup n = some v := by
  unfold NameDict.set
  by_cases hc : d.contains n = true
  · rw [if_pos hc]
    unfold NameDict.contains at hc
    induction d with
    | nil => simp at hc
    | cons kv d ih =>
      obtain ⟨k, w⟩ := kv
      by_cases hk : n = k
      · subst hk
        simp [List.lookup_cons]
      · have hne : (n == k) = false := by simpa using hk
        have hk2 : ¬ k = n := fun h => hk h.symm
        simp only [List.lookup_cons, hne] at hc
        simp only [List.map_cons, hk2, if_false, List.lookup_cons, hne]
        exact ih hc
  · rw [if_neg hc]
    have hnone : d.lookup n = none := by
      unfold NameDict.contains at hc
      cases h : List.lookup n d with
      | none => rfl
      | some w => rw [h] at hc; simp at hc
    clear hc
    induction d with
    | nil => simp [List.lookup_cons]
    | cons kv d ih =>
      obtain ⟨k, w⟩ := kv
      by_cases hk : n = k
      · subst hk
        simp [List.lookup_cons] at hnone
      · have hne : (n == k) = false := by simpa using hk
        simp only [List.lookup_cons, hne] at hnone
        simp only [List.cons_append, List.lookup_cons, hne]
        exact ih hnone

theorem set_lookup_other (d : NameDict) (n m : StrName) (v : PyObjectPtr) (h : m ≠ n) :
    (d.set n v).lookup m = d.lookup m := by
  unfold NameDict.set
  by_cases hc : d.contains n = true
  · rw [if_pos hc]
    clear hc
    induction d with
    | nil => rfl
    | cons kv d ih =>
      obtain ⟨k, w⟩ := kv
      by_cases hk : k = n
      · subst hk
        have hne : (m == k) = false := by simpa using h
        simp only [List.map_cons, if_true, List.lookup_cons, hne]
        exact ih
      · by_cases hmk : m = k
        · subst hmk
          simp [List.lookup_cons, hk]
        · have hne : (m == k) = false := by simpa using hmk
          simp only [List.map_cons, hk, if_false, List.lookup_cons, hne]
          exact ih
  · rw [if_neg hc]
    clear hc
    induction d with
    | nil =>
      have hne : (m == n) = false := by simpa using h
      simp [List.lookup_cons, hne]
    | cons kv d ih =>
      obtain ⟨k, w⟩ := kv
      by_cases hmk : m = k
      · subst hmk
        simp [List.lookup_cons]
      · have hne : (m == k) = false := by simpa using hmk
        simp only [List.cons_append, List.lookup_cons, hne]
        exact ih

/-! ## Source resolution of the import (C16) -/

theorem lookup_filter_self (l : List (StrName × String)) (name : StrName) :
    (l.filter (fun e => e.1 ≠ name)).lookup name = none := by
  induction l with
  | nil => rfl
  | cons e l ih =>
    obtain ⟨k, v⟩ := e
    by_cases hk : k = name
    · simpa [List.filter_cons, hk] using ih
    · have hne : (name == k) = false := by simpa using fun h => hk h.symm
      simpa [List.filter_cons, hk, List.lookup_cons, hne] using ih

theorem lookup_filter_other (l : List (StrName × String)) (name n : StrName) (h : n ≠ name) :
    (l.filter (fun e => e.1 ≠ name)).lookup n = l.lookup n := by
  induction l with
  | nil => rfl
  | cons e l ih =>
    obtain ⟨k, v⟩ := e
    by_cases hk : k = name
    · subst hk
      have hne : (n == k) = false := by simpa using h
      simpa [List.filter_cons, List.lookup_cons, hne] using ih
    · by_cases hnk : n = k
      · simp [List.filter_cons, hk, List.lookup_cons, hnk]
      · have hne : (n == k) = false := by simpa using hnk
        simpa [List.filter_cons, hk, List.lookup_cons, hne] using ih

/-- The miss branch of `OP_IMPORT_NAME` after the resolution of the source. -/
theorem import_name_resolved (ext : Ext) (name : StrName) (src : String) (vm0 : VM)
    (f1 : Frame) :
    ((service (ext.compile src name.str)).bind fun code =>
        (new_module name).bind fun new_mod =>
          (service (ext._exec code new_mod)).bind fun _ =>
            Exec.bind (fun vm f => Result.ok () vm f) fun _ => push PyObjectPtr.nullptr)
        vm0 f1
      = import_tail ext name src .nullptr vm0 f1 := by
  simp only [import_tail, Exec.bind, service, new_module, getVM, setVM, Bind.bind, Pure.pure]

/-- After `new_module(name)` the name is in the module table. -/
theorem new_module_registers (name : StrName) (vm2 vm3 : VM) (f1 f2 : Frame)
    (m : PyObjectPtr) (h : new_module name vm2 f1 = .ok m vm3 f2) :
    vm3._modules.try_get name ≠ .nullptr := by
  simp only [new_module, getVM, setVM, Bind.bind, Exec.bind, Pure.pure, Result.ok.injEq] at h
  obtain ⟨_, h2, _⟩ := h
  subst h2
  simp [NameDict.try_get, set_lookup_self]

/-- Once the source is resolved, the only errors of the import are the one thrown by the
compiler on that source and the one thrown by the run of the compiled module, called on the
state in which the new module is registered. -/
theorem import_tail_raise (ext : Ext) (name : StrName) (src : String) (vm0 : VM) (f1 : Frame)
    (e : Signal) (vm1 : VM) (f2 : Frame)
    (h : import_tail ext name src .nullptr vm0 f1 = .raise e vm1 f2) :
    ext.compile src name.str f1 vm0 = .throw e vm1 ∨
    ∃ code vm2 new_mod vm3,
      ext.compile src name.str f1 vm0 = .ok code vm2 ∧
      new_module name vm2 f1 = .ok new_mod vm3 f1 ∧
      ext._exec code new_mod f1 vm3 = .throw e vm1 := by
  simp only [import_tail, Exec.bind, service, Bind.bind] at h
  cases hc : ext.compile src name.str f1 vm0 with
  | throw e2 vm2 =>
    rw [hc] at h
    simp only [Result.raise.injEq] at h
    exact Or.inl (by rw [h.1, h.2.1])
  | ok code vm2 =>
    rw [hc] at h
    dsimp only at h
    have hn : new_module name vm2 f1
        = .ok (.obj vm2.next_addr)
            { vm2 with _modules := vm2._modules.set name (.obj vm2.next_addr),
                       attrs := vm2.attrs ++ [(.obj vm2.next_addr, [])],
                       next_addr := vm2.next_addr + 1 } f1 := rfl
    rw [hn] at h
    dsimp only at h
    cases hre : ext._exec code (.obj vm2.next_addr) f1
        { vm2 with _modules := vm2._modules.set name (.obj vm2.next_addr),
                   attrs := vm2.attrs ++ [(.obj vm2.next_addr, [])],
                   next_addr := vm2.next_addr + 1 } with
    | throw e3 vm3 =>
      rw [hre] at h
      simp only [Result.raise.injEq] at h
      exact Or.inr ⟨code, vm2, _, _, rfl, hn, by rw [hre, h.1, h.2.1]⟩
    | ok r vm3 =>
      rw [hre] at h
      simp [push] at h

/-- The three ways of `OP_IMPORT_NAME`: on a module-table hit the module is pushed; on a miss
with a lazy entry or, failing that, a source file, the rest of the import runs on the
resolved source; on a miss without either the import error is raised. -/
theorem import_name_cases (ext : Ext) (vm : VM) (f : Frame) (arg : Int) (blk : Nat)
    (name : StrName)
    (hfetch : index? f.co.codes f.pc = some ⟨.OP_IMPORT_NAME, arg, blk⟩)
    (hname : index? f.co.names arg = some name) :
    ((ext._auto_collect f vm)._modules.try_get name ≠ .nullptr →
      step ext vm f = .ok () (ext._auto_collect f vm)
        { f with pc := f.pc + 1,
                 stack := f.stack ++ [(ext._auto_collect f vm)._modules.try_get name] }) ∧
    ((ext._auto_collect f vm)._modules.try_get name = .nullptr →
      (∀ src, (ext._auto_collect f vm)._lazy_modules.lookup name = some src →
        step ext vm f = import_tail ext name src .nullptr
          { ext._auto_collect f vm with
            _lazy_modules :=
              (ext._auto_collect f vm)._lazy_modules.filter (fun e => e.1 ≠ name) }
          { f with pc := f.pc + 1 }) ∧
      ((ext._auto_collect f vm)._lazy_modules.lookup name = none →
        ∀ src, _read_file_cwd (ext._auto_collect f vm) (name.str ++ ".py") = some src →
          step ext vm f = import_tail ext name src .nullptr (ext._auto_collect f vm)
            { f with pc := f.pc + 1 }) ∧
      ((ext._auto_collect f vm)._lazy_modules.lookup name = none →
        _read_file_cwd (ext._auto_collect f vm) (name.str ++ ".py") = none →
          step ext vm f = .raise (import_error ext name) (ext._auto_collect f vm)
            { f with pc := f.pc + 1 })) := by
  have hstep := step_fetch ext vm f _ hfetch
  generalize ext._auto_collect f vm = vmc at hstep ⊢
  refine ⟨?_, fun hmiss => ⟨?_, ?_, ?_⟩⟩
  · intro hhit
    rw [hstep]
    simp [dispatch, op_import_name, co_names, getFrame, defined, Bind.bind, Exec.bind,
      hname, getVM, hhit, Pure.pure, push]
  · intro src hl
    rw [hstep, ← import_name_resolved]
    simp only [dispatch, op_import_name, co_names, getFrame, defined, Bind.bind, Exec.bind,
      hname, getVM, hmiss, if_true, Pure.pure, hl, setVM]
  · intro hl src hf
    rw [hstep, ← import_name_resolved]
    simp only [dispatch, op_import_name, co_names, getFrame, defined, Bind.bind, Exec.bind,
      hname, getVM, hmiss, if_true, Pure.pure, hl, hf]
  · intro hl hf
    rw [hstep]
    simp only [dispatch, op_import_name, co_names, getFrame, defined, Bind.bind, Exec.bind,
      hname, getVM, hmiss, if_true, Pure.pure, hl, hf, throw_, import_error]

/-- C16.  `OP_IMPORT_NAME` on a module-table miss: if the lazy table has an entry for the
name, the source of that entry is the one compiled and the entry is removed from the lazy
table, the other entries being unchanged; otherwise the source compiled is the content of
the file `<name>.py` of the working directory; if the name is in neither table and the file
read fails, the instruction raises the import error, whose message names the module, and
the VM state, with the module table and the lazy table, and the operand stack are unchanged.
Every error of the instruction is either that import error, in exactly that case, or the
error thrown by the compiler on the resolved source or by the run of the compiled module.
Hence, with a compiler that raises no import error for the module and a run of modules that
raises the import error of a module only from a state in which that module is not
registered, the instruction fails with the import error naming the module if and only if
the name is in neither the module table nor the lazy table and the file read fails. -/
theorem C16_import_source_resolution (ext : Ext) (vm : VM) (f : Frame) (arg : Int)
    (blk : Nat) (name : StrName)
    (hfetch : index? f.co.codes f.pc = some ⟨.OP_IMPORT_NAME, arg, blk⟩)
    (hname : index? f.co.names arg = some name) :
    ((ext._auto_collect f vm)._modules.try_get name = .nullptr →
      (∀ src, (ext._auto_collect f vm)._lazy_modules.lookup name = some src →
        step ext vm f = import_tail ext name src .nullptr
          { ext._auto_collect f vm with
            _lazy_modules :=
              (ext._auto_collect f vm)._lazy_modules.filter (fun e => e.1 ≠ name) }
          { f with pc := f.pc + 1 } ∧
        ((ext._auto_collect f vm)._lazy_modules.filter (fun e => e.1 ≠ name)).lookup name
          = none ∧
        ∀ n, n ≠ name →
          ((ext._auto_collect f vm)._lazy_modules.filter (fun e => e.1 ≠ name)).lookup n
            = (ext._auto_collect f vm)._lazy_modules.lookup n) ∧
      ((ext._auto_collect f vm)._lazy_modules.lookup name = none →
        ∀ src, _read_file_cwd (ext._auto_collect f vm) (name.str ++ ".py") = some src →
          step ext vm f = import_tail ext name src .nullptr (ext._auto_collect f vm)
            { f with pc := f.pc + 1 }) ∧
      ((ext._auto_collect f vm)._lazy_modules.lookup name = none →
        _read_file_cwd (ext._auto_collect f vm) (name.str ++ ".py") = none →
          step ext vm f = .raise (import_error ext name) (ext._auto_collect f vm)
            { f with pc := f.pc + 1 })) ∧
    (∀ e vm1 f1, step ext vm f = .raise e vm1 f1 →
      ((ext._auto_collect f vm)._modules.try_get name = .nullptr ∧
        (ext._auto_collect f vm)._lazy_modules.lookup name = none ∧
        _read_file_cwd (ext._auto_collect f vm) (name.str ++ ".py") = none ∧
        e = import_error ext name ∧ vm1 = ext._auto_collect f vm ∧
        f1 = { f with pc := f.pc + 1 }) ∨
      ((ext._auto_collect f vm)._modules.try_get name = .nullptr ∧
        ∃ src vm0,
          (((ext._auto_collect f vm)._lazy_modules.lookup name = some src ∧
              vm0 = { ext._auto_collect f vm with
                _lazy_modules :=
                  (ext._auto_collect f vm)._lazy_modules.filter (fun e => e.1 ≠ name) }) ∨
            ((ext._auto_collect f vm)._lazy_modules.lookup name = none ∧
              _read_file_cwd (ext._auto_collect f vm) (name.str ++ ".py") = some src ∧
              vm0 = ext._auto_collect f vm)) ∧
          (ext.compile src name.str { f with pc := f.pc + 1 } vm0 = .throw e vm1 ∨
            ∃ code vm2 new_mod vm3,
              ext.compile src name.str { f with pc := f.pc + 1 } vm0 = .ok code vm2 ∧
              new_module name vm2 { f with pc := f.pc + 1 }
                = .ok new_mod vm3 { f with pc := f.pc + 1 } ∧
              ext._exec code new_mod { f with pc := f.pc + 1 } vm3 = .throw e vm1))) ∧
    ((∀ src f0 v0 v1, ext.compile src name.str f0 v0 ≠ .throw (import_error ext name) v1) →
      (∀ code m f0 v0 v1, ext._exec code m f0 v0 = .throw (import_error ext name) v1 →
        v0._modules.try_get name = .nullptr) →
      ((∃ vm1 f1, step ext vm f = .raise (import_error ext name) vm1 f1) ↔
        ((ext._auto_collect f vm)._modules.try_get name = .nullptr ∧
          (ext._auto_collect f vm)._lazy_modules.lookup name = none ∧
          _read_file_cwd (ext._auto_collect f vm) (name.str ++ ".py") = none))) ∧
    (∃ msg, import_error ext name = .error "ImportError" msg ∧
      (ext.escape name.str).data <:+: msg.data) := by
  obtain ⟨hhit, hmiss⟩ := import_name_cases ext vm f arg blk name hfetch hname
  generalize ext._auto_collect f vm = vmc at hhit hmiss ⊢
  have hall : ∀ e vm1 f1, step ext vm f = .raise e vm1 f1 →
      (vmc._modules.try_get name = .nullptr ∧ vmc._lazy_modules.lookup name = none ∧
        _read_file_cwd vmc (name.str ++ ".py") = none ∧
        e = import_error ext name ∧ vm1 = vmc ∧ f1 = { f with pc := f.pc + 1 }) ∨
      (vmc._modules.try_get name = .nullptr ∧
        ∃ src vm0,
          ((vmc._lazy_modules.lookup name = some src ∧
              vm0 = { vmc with
                _lazy_modules := vmc._lazy_modules.filter (fun e => e.1 ≠ name) }) ∨
            (vmc._lazy_modules.lookup name = none ∧
              _read_file_cwd vmc (name.str ++ ".py") = some src ∧ vm0 = vmc)) ∧
          (ext.compile src name.str { f with pc := f.pc + 1 } vm0 = .throw e vm1 ∨
            ∃ code vm2 new_mod vm3,
              ext.compile src name.str { f with pc := f.pc + 1 } vm0 = .ok code vm2 ∧
              new_module name vm2 { f with pc := f.pc + 1 }
                = .ok new_mod vm3 { f with pc := f.pc + 1 } ∧
              ext._exec code new_mod { f with pc := f.pc + 1 } vm3 = .throw e vm1)) := by
    intro e vm1 f1 h
    by_cases hm : vmc._modules.try_get name = .nullptr
    · obtain ⟨h1, h2, h3⟩ := hmiss hm
      cases hl : vmc._lazy_modules.lookup name with
      | some src =>
        rw [h1 src hl] at h
        exact Or.inr ⟨hm, src, _, Or.inl ⟨rfl, rfl⟩,
          import_tail_raise ext name src _ _ e vm1 f1 h⟩
      | none =>
        cases hf : _read_file_cwd vmc (name.str ++ ".py") with
        | some src =>
          rw [h2 hl src hf] at h
          exact Or.inr ⟨hm, src, _, Or.inr ⟨rfl, rfl, rfl⟩,
            import_tail_raise ext name src _ _ e vm1 f1 h⟩
        | none =>
          rw [h3 hl hf] at h
          simp only [Result.raise.injEq] at h
          exact Or.inl ⟨hm, rfl, rfl, h.1.symm, h.2.1.symm, h.2.2.symm⟩
    · rw [hhit hm] at h
      cases h
  refine ⟨fun hm => ⟨fun src hl => ⟨(hmiss hm).1 src hl, lookup_filter_self _ name,
    lookup_filter_other _ name⟩, (hmiss hm).2.1, (hmiss hm).2.2⟩, hall, ?_, ?_⟩
  · intro hcompile hexec
    constructor
    · rintro ⟨vm1, f1, h⟩
      rcases hall _ vm1 f1 h with
        ⟨hm, hl, hf, _⟩ | ⟨_, src, vm0, _, hc | ⟨code, vm2, m, vm3, _, hn, he⟩⟩
      · exact ⟨hm, hl, hf⟩
      · exact absurd hc (hcompile src _ vm0 vm1)
      · exact absurd (hexec code m _ vm3 vm1 he) (new_module_registers name vm2 vm3 _ _ m hn)
    · rintro ⟨hm, hl, hf⟩
      exact ⟨_, _, (hmiss hm).2.2 hl hf⟩
  · refine ⟨_, rfl, "module ".data, " not found".data, ?_⟩
    simp [String.data_append]

/-- C16 at concrete states, with a run of the module that performs a nested import: the
module `m` is resolved from the lazy table and the import does not fail with the import
error of `m`; the module `y` is resolved from the file `y.py`; the module `x`, which is in
neither table and has no file, raises its import error. -/
theorem C16_import_source_resolution_witness :
    step nestedExt sampleVM (sampleFrame [⟨.OP_IMPORT_NAME, 1, 0⟩] [])
      = import_tail nestedExt ⟨"m"⟩ "x = 1" .nullptr { sampleVM with _lazy_modules := [] }
          { sampleFrame [⟨.OP_IMPORT_NAME, 1, 0⟩] [] with pc := 1 } ∧
    (¬ ∃ vm1 f1, step nestedExt sampleVM (sampleFrame [⟨.OP_IMPORT_NAME, 1, 0⟩] [])
      = .raise (import_error nestedExt ⟨"m"⟩) vm1 f1) ∧
    step nestedExt fileVM (sampleFrame [⟨.OP_IMPORT_NAME, 2, 0⟩] [])
      = import_tail nestedExt ⟨"y"⟩ "z = 2" .nullptr fileVM
          { sampleFrame [⟨.OP_IMPORT_NAME, 2, 0⟩] [] with pc := 1 } ∧
    step nestedExt sampleVM (sampleFrame [⟨.OP_IMPORT_NAME, 0, 0⟩] [.obj 4])
      = .raise (import_error nestedExt ⟨"x"⟩) sampleVM
          { sampleFrame [⟨.OP_IMPORT_NAME, 0, 0⟩] [.obj 4] with pc := 1 } := by
  have hm := C16_import_source_resolution nestedExt sampleVM
    (sampleFrame [⟨.OP_IMPORT_NAME, 1, 0⟩] []) 1 0 ⟨"m"⟩ rfl rfl
  have hx := C16_import_source_resolution nestedExt sampleVM
    (sampleFrame [⟨.OP_IMPORT_NAME, 0, 0⟩] [.obj 4]) 0 0 ⟨"x"⟩ rfl rfl
  have hy := C16_import_source_resolution nestedExt fileVM
    (sampleFrame [⟨.OP_IMPORT_NAME, 2, 0⟩] []) 2 0 ⟨"y"⟩ rfl rfl
  refine ⟨((hm.1 rfl).1 "x = 1" rfl).1, ?_, (hy.1 rfl).2.1 rfl "z = 2" rfl,
    (hx.1 rfl).2.2 rfl rfl⟩
  have hiff := hm.2.2.1 (fun _ _ _ _ h => by cases h) (by
    intro code m f0 v0 v1 h
    by_contra hhit
    have hstep := (import_name_cases sampleExt v0 (sampleFrame [⟨.OP_IMPORT_NAME, 1, 0⟩] [])
      1 0 ⟨"m"⟩ rfl rfl).1 hhit
    have h2 : nestedExt._exec code m f0 v0
        = match step sampleExt v0 (sampleFrame [⟨.OP_IMPORT_NAME, 1, 0⟩] []) with
          | .ok _ vm1 _ => .ok .None vm1
          | .return_ v vm1 _ => .ok v vm1
          | .raise e vm1 _ => .throw e vm1
          | .undefined => .ok .None v0 := rfl
    rw [h2, hstep] at h
    cases h)
  intro h
  have := (hiff.mp h).2.1
  cases this

/-! ## Import star (C17) -/

theorem lookup_none_of_not_mem_keys (items : List (StrName × PyObjectPtr)) (n : StrName)
    (h : n ∉ items.map Prod.fst) : items.lookup n = none := by
  induction items with
  | nil => rfl
  | cons kv items ih =>
    obtain ⟨k, w⟩ := kv
    simp only [List.map_cons, List.mem_cons, not_or] at h
    have hne : (n == k) = false := by simpa using h.1
    simp only [List.lookup_cons, hne]
    exact ih h.2

/-- The bindings of the globals after the copy: an exportable name bound in `items` gets
its value there, every other name keeps its binding. -/
theorem star_globals_lookup (n : StrName) :
    ∀ (items : List (StrName × PyObjectPtr)) (g : NameDict), (items.map Prod.fst).Nodup →
      (star_globals items g).lookup n
        = match (if exportable n then items.lookup n else none) with
          | some v => some v
          | none => g.lookup n := by
  intro items
  induction items with
  | nil => intro g _; simp [star_globals]
  | cons kv items ih =>
    intro g hnd
    obtain ⟨k, w⟩ := kv
    simp only [List.map_cons, List.nodup_cons] at hnd
    obtain ⟨hk, hnd⟩ := hnd
    by_cases hnk : n = k
    · subst hnk
      have hl : items.lookup n = none := lookup_none_of_not_mem_keys items n hk
      by_cases he : exportable n = true
      · simp [star_globals, he, ih _ hnd, hl, set_lookup_self, List.lookup_cons]
      · simp [star_globals, he, ih _ hnd]
    · have hne : (n == k) = false := by simpa using hnk
      by_cases he : exportable k = true
      · simp only [star_globals, he, if_true, ih _ hnd, List.lookup_cons, hne,
          set_lookup_other g k n w hnk]
      · simp only [star_globals, he, List.lookup_cons, hne]
        exact ih g hnd

theorem set_self_of_getElem? {α : Type} (l : List α) (i : Nat) (a : α) (h : l[i]? = some a) :
    l.set i a = l := by
  apply List.ext_getElem?
  intro j
  by_cases hj : i = j
  · subst hj
    rw [getElem?_set_same l i a a h, h]
  · rw [getElem?_set_other l i j a hj]

theorem f_globals_eq (vm : VM) (f : Frame) (g : NameDict)
    (hg : f.names[f.globals_at]? = some (some g)) : f_globals vm f = .ok g vm f := by
  simp [f_globals, getFrame, Bind.bind, Exec.bind, hg, defined, Pure.pure]

theorem set_f_globals_eq (vm : VM) (f : Frame) (g d : NameDict)
    (hg : f.names[f.globals_at]? = some (some g)) :
    set_f_globals d vm f
      = .ok () vm { f with names := f.names.set f.globals_at (some d) } := by
  simp [set_f_globals, f_globals, getFrame, Bind.bind, Exec.bind, hg, defined, Pure.pure,
    setFrame]

theorem import_star_loop_eq (vm : VM) :
    ∀ (items : List (StrName × PyObjectPtr)) (f : Frame) (g : NameDict),
      f.names[f.globals_at]? = some (some g) →
      import_star_loop items vm f
        = .ok () vm
            { f with names := f.names.set f.globals_at (some (star_globals items g)) } := by
  intro items
  induction items with
  | nil =>
    intro f g hg
    simp [import_star_loop, star_globals, Pure.pure, set_self_of_getElem? _ _ _ hg]
  | cons kv items ih =>
    intro f g hg
    obtain ⟨k, w⟩ := kv
    by_cases he : exportable k = true
    · have he2 : (k.str.isEmpty || k.str.front == '_') = false := by
        cases h : (k.str.isEmpty || k.str.front == '_') with
        | false => rfl
        | true => rw [exportable, h] at he; cases he
      have hg2 : ({ f with names := f.names.set f.globals_at (some (g.set k w)) } :
          Frame).names[f.globals_at]? = some (some (g.set k w)) :=
        getElem?_set_same _ _ _ _ hg
      have h3 := ih { f with names := f.names.set f.globals_at (some (g.set k w)) }
        (g.set k w) hg2
      simp only [import_star_loop, he2, Bool.false_eq_true, if_false, Bind.bind, Exec.bind,
        f_globals_eq vm f g hg, set_f_globals_eq vm f g _ hg]
      rw [h3]
      simp [star_globals, he, List.set_set]
    · have he2 : (k.str.isEmpty || k.str.front == '_') = true := by
        cases h : (k.str.isEmpty || k.str.front == '_') with
        | true => rfl
        | false => exact absurd (by rw [exportable, h]; rfl) he
      simp only [import_star_loop, he2, if_true]
      rw [ih f g hg]
      simp [star_globals, he]

/-- C17.  `OP_IMPORT_STAR` with the module `m` on top of the stack, whose attribute table `d`
binds each name once: the instruction removes exactly `m` from the stack, leaves the VM
state, with the attribute table of the module, unchanged, and replaces the globals `dg` of
the frame by a table in which every non-empty name `n` not starting with an underscore that
is an attribute of `m`, with the value `v`, is bound to `v`, and every other name is bound
exactly as it was in `dg`. -/
theorem C17_import_star (ext : Ext) (vm : VM) (f : Frame) (arg : Int) (blk : Nat)
    (rest : List PyObjectPtr) (m : PyObjectPtr) (d dg : NameDict)
    (hfetch : index? f.co.codes f.pc = some ⟨.OP_IMPORT_STAR, arg, blk⟩)
    (hstack : f.stack = rest ++ [m])
    (hattr : attr? (ext._auto_collect f vm) m = some d)
    (hnodup : (d.map Prod.fst).Nodup)
    (hg : f.names[f.globals_at]? = some (some dg)) :
    step ext vm f = .ok () (ext._auto_collect f vm)
      { f with pc := f.pc + 1, stack := rest,
               names := f.names.set f.globals_at (some (star_globals d dg)) } ∧
    (f.names.set f.globals_at (some (star_globals d dg)))[f.globals_at]?
      = some (some (star_globals d dg)) ∧
    (∀ n v, d.lookup n = some v → exportable n = true →
      (star_globals d dg).lookup n = some v) ∧
    (∀ n, d.lookup n = none ∨ exportable n = false →
      (star_globals d dg).lookup n = dg.lookup n) := by
  refine ⟨?_, getElem?_set_same _ _ _ _ hg, ?_, ?_⟩
  · rw [step_fetch ext vm f _ hfetch]
    have hp : ∀ w : VM, popx w { f with pc := f.pc + 1 }
        = .ok m w { f with pc := f.pc + 1, stack := rest } :=
      fun w => popx_concat _ _ rest m (by simp [hstack])
    simp only [dispatch, Bind.bind, Exec.bind, hp, getVM, hattr, defined, Pure.pure,
      NameDict.items]
    rw [import_star_loop_eq _ d { f with pc := f.pc + 1, stack := rest } dg hg]
  · intro n v hl he
    rw [star_globals_lookup n d dg hnodup]
    simp [he, hl]
  · intro n h
    rw [star_globals_lookup n d dg hnodup]
    rcases h with hl | he
    · simp [hl]
    · simp [he]

/-- C17 at a concrete module: the attribute `a` is copied, `_b` is not. -/
theorem C17_import_star_witness :
    step sampleExt starVM (sampleFrame [⟨.OP_IMPORT_STAR, 0, 0⟩] [.obj 9, .obj 5])
      = .ok () starVM
          { sampleFrame [⟨.OP_IMPORT_STAR, 0, 0⟩] [.obj 9, .obj 5] with
            pc := 1, stack := [.obj 9],
            names := [some [(⟨"x"⟩, .obj 1)],
                      some [(⟨"x"⟩, .obj 2), (⟨"a"⟩, .obj 1)], none] } :=
  (C17_import_star sampleExt starVM (sampleFrame [⟨.OP_IMPORT_STAR, 0, 0⟩] [.obj 9, .obj 5])
    0 0 [.obj 9] (.obj 5) [(⟨"a"⟩, .obj 1), (⟨"_b"⟩, .obj 2)] [(⟨"x"⟩, .obj 2)]
    rfl rfl rfl (by decide) rfl).1

/-! ## The default case (C18) -/

/-- C18.  The opcodes that are not a case of the switch are exactly the reserved ones, and an
operation with such an opcode fails at once with the diagnostic
`opcode <opcode name> is not implemented`; the frame at the failure is the one before the
instruction but for the advanced counter: nothing is pushed or popped and no scope table is
modified. -/
theorem C18_default_case (ext : Ext) (vm : VM) (f : Frame) (op : Opcode) (arg : Int)
    (blk : Nat)
    (hfetch : index? f.co.codes f.pc = some ⟨op, arg, blk⟩)
    (hop : op ∉ switch_cases) :
    op ∈ reserved_opcodes ∧
    step ext vm f
      = .raise (.runtime_error ("opcode " ++ ext.OP_NAMES op ++ " is not implemented"))
          (ext._auto_collect f vm) { f with pc := f.pc + 1 } := by
  rw [step_fetch ext vm f _ hfetch]
  cases op <;> first
    | exact absurd (by decide) hop
    | exact ⟨by decide, rfl⟩

/-- The reserved opcodes are exactly those that are not a case of the switch. -/
theorem reserved_iff_not_case (op : Opcode) : op ∈ reserved_opcodes ↔ op ∉ switch_cases := by
  cases op <;> decide

/-- C18 at a concrete frame: the reserved opcode `OP_YIELD_VALUE`. -/
theorem C18_default_case_witness :
    step sampleExt sampleVM (sampleFrame [⟨.OP_YIELD_VALUE, 0, 0⟩] [.obj 4])
      = .raise (.runtime_error "opcode OP is not implemented") sampleVM
          { sampleFrame [⟨.OP_YIELD_VALUE, 0, 0⟩] [.obj 4] with pc := 1 } :=
  (C18_default_case sampleExt sampleVM (sampleFrame [⟨.OP_YIELD_VALUE, 0, 0⟩] [.obj 4])
    .OP_YIELD_VALUE 0 0 rfl (by decide)).2

/-! ## Rendering (C19) -/

theorem top_n_reversed_append (vm : VM) (f : Frame) (n : Int) (rest xs : List PyObjectPtr)
    (hn : n = xs.length) (h : f.stack = rest ++ xs) :
    top_n_reversed n vm f = .ok xs vm f := by
  subst hn
  simp [top_n_reversed, h]

theorem build_string_loop_eq (ext : Ext) (fr : Frame) :
    ∀ (items : Args) (ss : String) (vm : VM),
      build_string_loop ext items ss vm fr
        = match render_concat ext fr items ss vm with
          | .ok s vm1 => .ok s vm1 fr
          | .throw e vm1 => .raise e vm1 fr := by
  intro items
  induction items with
  | nil => intro ss vm; rfl
  | cons item items ih =>
    intro ss vm
    simp only [build_string_loop, render_concat, Bind.bind, Exec.bind, service]
    cases ext.asStr item fr vm with
    | throw e vm1 => rfl
    | ok s vm1 =>
      dsimp only
      cases ext.CAST_Str s fr vm1 with
      | throw e vm2 => rfl
      | ok str vm2 =>
        dsimp only
        exact ih (ss ++ str) vm2

theorem render_concat_pure (ext : Ext) (fr : Frame) (o : PyObjectPtr → PyObjectPtr)
    (r : PyObjectPtr → String)
    (hstr : ∀ x vm, ext.asStr x fr vm = .ok (o x) vm)
    (hcast : ∀ x vm, ext.CAST_Str (o x) fr vm = .ok (r x) vm) :
    ∀ (items : Args) (ss : String) (vm : VM),
      render_concat ext fr items ss vm = .ok (items.foldl (fun s x => s ++ r x) ss) vm := by
  intro items
  induction items with
  | nil => intro ss vm; rfl
  | cons item items ih =>
    intro ss vm
    simp only [render_concat, hstr, hcast, List.foldl_cons]
    exact ih _ _

/-- C19.  In `OP_PRINT_EXPR` and `OP_BUILD_STRING N` every rendering call (`asRepr`, `asStr`)
is made while the operand stack of the active frame is the stack before the instruction:
the values are removed only after all the renderings.  Afterwards `OP_PRINT_EXPR` has
removed exactly one value, and has emitted the rendering and a newline exactly when the value
is not `None`; `OP_BUILD_STRING` has replaced the top `N` values by the string made from the
concatenation of their renderings in the original left-to-right order. -/
theorem C19_rendering_rooted (ext : Ext) (vm : VM) (f : Frame) (arg : Int) (blk : Nat)
    (rest xs : List PyObjectPtr)
    (hstack : f.stack = rest ++ xs) :
    ({ f with pc := f.pc + 1 } : Frame).stack = f.stack ∧
    (∀ v, xs = [v] → index? f.co.codes f.pc = some ⟨.OP_PRINT_EXPR, arg, blk⟩ →
      step ext vm f
        = print_outcome ext v (ext._auto_collect f vm) { f with pc := f.pc + 1 } rest) ∧
    (arg = xs.length → index? f.co.codes f.pc = some ⟨.OP_BUILD_STRING, arg, blk⟩ →
      step ext vm f
        = build_string_outcome ext xs (ext._auto_collect f vm) { f with pc := f.pc + 1 }
            rest ∧
      ∀ (o : PyObjectPtr → PyObjectPtr) (r : PyObjectPtr → String),
        (∀ x w, ext.asStr x { f with pc := f.pc + 1 } w = .ok (o x) w) →
        (∀ x w, ext.CAST_Str (o x) { f with pc := f.pc + 1 } w = .ok (r x) w) →
        step ext vm f = push_made
          (ext.VAR_Str (xs.foldl (fun s x => s ++ r x) "")
            { f with pc := f.pc + 1, stack := rest } (ext._auto_collect f vm))
          { f with pc := f.pc + 1, stack := rest }) := by
  refine ⟨rfl, ?_, ?_⟩
  · intro v hv hfetch
    subst hv
    rw [step_fetch ext vm f _ hfetch]
    have ht : ∀ w : VM, top w { f with pc := f.pc + 1 } = .ok v w { f with pc := f.pc + 1 } :=
      fun w => top_concat _ _ rest v (by simp [hstack])
    have hp : ∀ w : VM, popx w { f with pc := f.pc + 1 }
        = .ok v w { f with pc := f.pc + 1, stack := rest } :=
      fun w => popx_concat _ _ rest v (by simp [hstack])
    by_cases hv : v = .None
    · simp [dispatch, Bind.bind, Exec.bind, ht, hp, hv, pop, Pure.pure, print_outcome]
    · simp only [dispatch, Bind.bind, Exec.bind, ht, ne_eq, hv, not_false_eq_true, if_true,
        service, print_outcome, if_false]
      cases ext.asRepr v { f with pc := f.pc + 1 } (ext._auto_collect f vm) with
      | throw e vm1 => rfl
      | ok r vm1 =>
        dsimp only
        cases ext.CAST_Str r { f with pc := f.pc + 1 } vm1 with
        | throw e vm2 => rfl
        | ok s vm2 => simp [getVM, setVM, pop, hp, Bind.bind, Exec.bind, Pure.pure]
  · intro harg hfetch
    have hmain : step ext vm f
        = build_string_outcome ext xs (ext._auto_collect f vm) { f with pc := f.pc + 1 }
            rest := by
      rw [step_fetch ext vm f _ hfetch]
      have ht : ∀ w : VM, top_n_reversed arg w { f with pc := f.pc + 1 }
          = .ok xs w { f with pc := f.pc + 1 } :=
        fun w => top_n_reversed_append _ _ _ rest xs harg (by simp [hstack])
      have hp : ∀ w : VM, popx_n_reversed arg w { f with pc := f.pc + 1 }
          = .ok xs w { f with pc := f.pc + 1, stack := rest } :=
        fun w => popx_n_reversed_append _ _ _ rest xs harg (by simp [hstack])
      simp only [dispatch, Bind.bind, Exec.bind, ht, build_string_loop_eq,
        build_string_outcome]
      cases render_concat ext { f with pc := f.pc + 1 } xs "" (ext._auto_collect f vm) with
      | throw e vm1 => rfl
      | ok ss vm1 =>
        simp only [pop_n, Bind.bind, Exec.bind, hp, Pure.pure, service, push_made]
        cases ext.VAR_Str ss { f with pc := f.pc + 1, stack := rest } vm1 <;> simp [push]
    refine ⟨hmain, ?_⟩
    intro o r hstr hcast
    rw [hmain, build_string_outcome,
      render_concat_pure ext _ o r hstr hcast xs "" (ext._auto_collect f vm)]

/-- C19 at a concrete frame: the strings of `obj 1` and `obj 2` are concatenated in that
order. -/
theorem C19_rendering_rooted_witness :
    step strExt sampleVM (sampleFrame [⟨.OP_BUILD_STRING, 2, 0⟩] [.obj 9, .obj 1, .obj 2])
      = push_made
          (strExt.VAR_Str "aaa"
            { sampleFrame [⟨.OP_BUILD_STRING, 2, 0⟩] [.obj 9, .obj 1, .obj 2] with
              pc := 1, stack := [.obj 9] } sampleVM)
          { sampleFrame [⟨.OP_BUILD_STRING, 2, 0⟩] [.obj 9, .obj 1, .obj 2] with
            pc := 1, stack := [.obj 9] } :=
  ((C19_rendering_rooted strExt sampleVM
    (sampleFrame [⟨.OP_BUILD_STRING, 2, 0⟩] [.obj 9, .obj 1, .obj 2]) 2 0 [.obj 9]
    [.obj 1, .obj 2] rfl).2.2 rfl rfl).2 id
    (fun v => match v with
      | .obj n => String.mk (List.replicate n 'a')
      | _ => "")
    (fun _ _ => rfl) (fun x _ => by cases x <;> rfl)

/-! ## Decoding of the packed call argument (C20) -/

theorem ldiff_mask (n : Nat) : Nat.ldiff 65535 n = 65535 - n % 65536 := by
  apply Nat.eq_of_testBit_eq
  intro i
  have h1 : (65535 : Nat) - n % 65536 = 2 ^ 16 - (n % 2 ^ 16 + 1) := by
    have : n % 65536 < 65536 := Nat.mod_lt _ (by decide)
    norm_num
    omega
  have h2 : (65535 : Nat) = 2 ^ 16 - 1 := by norm_num
  rw [Nat.testBit_ldiff, h1, Nat.testBit_two_pow_sub_succ (Nat.mod_lt _ (by norm_num)), h2,
    Nat.testBit_two_pow_sub_one, Nat.testBit_mod_two_pow]
  cases decide (i < 16) <;> simp

theorem land_mask (x : Int) : Int.land x 0xFFFF = x % 65536 := by
  cases x with
  | ofNat n =>
    have h : Int.land (Int.ofNat n) 0xFFFF = ((n &&& 65535 : Nat) : Int) := rfl
    have h2 : n &&& 65535 = n % 65536 := Nat.and_pow_two_sub_one_eq_mod n 16
    rw [h, h2]
    simp
  | negSucc n =>
    have h : Int.land (Int.negSucc n) 0xFFFF = ((Nat.ldiff 65535 n : Nat) : Int) := rfl
    rw [h, ldiff_mask, Int.negSucc_emod n (by decide)]
    have : n % 65536 < 65536 := Nat.mod_lt _ (by decide)
    omega

theorem shiftRight_16 (x : Int) : Int.shiftRight x 16 = x / 65536 := by
  cases x with
  | ofNat n =>
    have h : Int.shiftRight (Int.ofNat n) 16 = ((n >>> 16 : Nat) : Int) := rfl
    rw [h, Nat.shiftRight_eq_div_pow]
    simp
  | negSucc n =>
    have h : Int.shiftRight (Int.negSucc n) 16 = Int.negSucc (n >>> 16) := rfl
    rw [h, Nat.shiftRight_eq_div_pow, Int.negSucc_ediv n (by decide)]
    simp [Int.negSucc_eq]
    rfl

theorem ARGC_eq (arg : Int) : ARGC arg = arg % 65536 := land_mask arg

theorem KWARGC_eq (arg : Int) : KWARGC arg = arg / 65536 % 65536 := by
  rw [KWARGC, land_mask, shiftRight_16]

theorem pack_call_arg_eq (k a : Nat) (ha : a ≤ 65535) :
    pack_call_arg k a = wrap_int32 ((k : Int) * 65536 + a) := by
  have h : k <<< 16 ||| a = 2 ^ 16 * k + a := by
    rw [Nat.shiftLeft_eq, Nat.mul_comm k]
    exact (Nat.mul_add_lt_is_or (by omega) k).symm
  rw [pack_call_arg, h]
  push_cast
  ring_nf

theorem decode_recombine (arg : Int) :
    arg / 65536 % 65536 * 65536 + arg % 65536
      = arg + 4294967296 * (-(arg / 65536 / 65536)) := by
  have h1 := Int.ediv_add_emod arg 65536
  have h2 := Int.ediv_add_emod (arg / 65536) 65536
  generalize arg / 65536 / 65536 = r at *
  generalize arg / 65536 % 65536 = k at *
  generalize arg / 65536 = q at *
  generalize arg % 65536 = a at *
  omega

theorem decode_bounds (arg : Int) :
    (0 ≤ ARGC arg ∧ ARGC arg ≤ 65535) ∧ (0 ≤ KWARGC arg ∧ KWARGC arg ≤ 65535) := by
  have hA := ARGC_eq arg
  have hK := KWARGC_eq arg
  refine ⟨by omega, by omega⟩

theorem decode_wrap (arg : Int) (h1 : -2147483648 ≤ arg) (h2 : arg < 2147483648) :
    wrap_int32 (KWARGC arg * 65536 + ARGC arg) = arg := by
  have hA := ARGC_eq arg
  have hK := KWARGC_eq arg
  rw [wrap_int32]
  omega

theorem decode_pack (k a : Nat) (ha : a ≤ 65535) (hk : k ≤ 65535) :
    ARGC (pack_call_arg k a) = a ∧ KWARGC (pack_call_arg k a) = k := by
  have hp := pack_call_arg_eq k a ha
  have hA2 : ARGC (pack_call_arg k a) = a := by
    rw [ARGC_eq, hp, wrap_int32]
    omega
  have hK2 : KWARGC (pack_call_arg k a) = k := by
    rw [KWARGC_eq, hp, wrap_int32]
    omega
  exact ⟨hA2, hK2⟩

/-- C20.  For every argument value `arg`, in particular every 32-bit one, negative ones
included, the counts `ARGC = arg & 0xFFFF` and `KWARGC = (arg >> 16) & 0xFFFF` decoded by
`OP_CALL_KWARGS` both lie in `[0, 65535]`, and `KWARGC * 65536 + ARGC` equals `arg` modulo
`2^32`.  Consequently, for all `a` and `k` in `[0, 65535]`, the packed 32-bit value
`(k << 16) | a` decodes to exactly `ARGC = a` and `KWARGC = k`, and `OP_CALL_KWARGS` with
that argument pops `2 * k` values for the keyword pairs and `a` positional values. -/
theorem C20_call_arg_decoding (arg : Int) (k a : Nat) :
    (0 ≤ ARGC arg ∧ ARGC arg ≤ 65535) ∧
    (0 ≤ KWARGC arg ∧ KWARGC arg ≤ 65535) ∧
    (KWARGC arg * 65536 + ARGC arg) % 4294967296 = arg % 4294967296 ∧
    (-2147483648 ≤ arg → arg < 2147483648 →
      wrap_int32 (KWARGC arg * 65536 + ARGC arg) = arg) ∧
    (a ≤ 65535 → k ≤ 65535 →
      ARGC (pack_call_arg k a) = a ∧ KWARGC (pack_call_arg k a) = k ∧
      ∀ (ext : Ext) (vm : VM) (f : Frame) (blk : Nat) (rest : List PyObjectPtr)
        (callee : PyObjectPtr) (ps kvs : List PyObjectPtr),
        index? f.co.codes f.pc = some ⟨.OP_CALL_KWARGS, pack_call_arg k a, blk⟩ →
        ps.length = a → kvs.length = 2 * k →
        f.stack = rest ++ callee :: (ps ++ kvs) →
        step ext vm f = after_call ext callee ps kvs (ext._auto_collect f vm)
          { f with pc := f.pc + 1, stack := rest }) := by
  refine ⟨(decode_bounds arg).1, (decode_bounds arg).2, ?_, decode_wrap arg, ?_⟩
  · rw [ARGC_eq, KWARGC_eq, decode_recombine, Int.add_mul_emod_self_left]
  · intro ha hk
    obtain ⟨hA2, hK2⟩ := decode_pack k a ha hk
    refine ⟨hA2, hK2, ?_⟩
    intro ext vm f blk rest callee ps kvs hfetch hps hkvs hstack
    rw [step_fetch ext vm f _ hfetch]
    have h1 : Int.land (pack_call_arg k a) 0xFFFF = (ps.length : Int) := by
      rw [hps]; exact hA2
    have h2 : Int.land (Int.shiftRight (pack_call_arg k a) 16) 0xFFFF * 2
        = (kvs.length : Int) := by
      have h3 : Int.land (Int.shiftRight (pack_call_arg k a) 16) 0xFFFF = (k : Int) := hK2
      rw [h3, hkvs]; push_cast; ring
    have hd : dispatch ext ⟨.OP_CALL_KWARGS, pack_call_arg k a, blk⟩
        = op_call_kwargs ext ⟨.OP_CALL_KWARGS, pack_call_arg k a, blk⟩ := rfl
    rw [hd]
    exact op_call_kwargs_spec ext _ { f with pc := f.pc + 1 } .OP_CALL_KWARGS _ blk rest
      callee ps kvs ps (ext._auto_collect f vm) hstack h1 h2 (Or.inl ⟨rfl, rfl, rfl⟩)

/-- C20 at a concrete argument: `k = 65535` and `a = 3`, whose packed value is negative. -/
theorem C20_call_arg_decoding_witness :
    pack_call_arg 65535 3 = -65533 ∧
    ARGC (pack_call_arg 65535 3) = 3 ∧ KWARGC (pack_call_arg 65535 3) = 65535 :=
  ⟨by decide,
    ((C20_call_arg_decoding 0 65535 3).2.2.2.2 (by decide) (by decide)).1,
    ((C20_call_arg_decoding 0 65535 3).2.2.2.2 (by decide) (by decide)).2.1⟩

end pkpy
